import Mathlib

/-
Verification of the MASProject gridworld policy-iteration system.

The definitions below are a shallow embedding of the Python sources:
- src/grid_agent/data_structs/simple_data.py   (Action, Vec2D, Obstacle, MapSize)
- src/grid_agent/data_structs/state.py         (State)
- src/grid_agent/data_structs/valid_state_space.py  (ValidStateSpace)
- src/grid_agent/functors/markov_transition_density.py
- src/grid_agent/functors/reward.py
- src/grid_agent/configs/base_configs.py, train_configs.py (validation)
- src/grid_agent/entities/train_manager.py, parallel_train.py
- src/grid_agent/entities/moving_entity.py, game_manager.py

Python machine floats are modelled as rationals (exact arithmetic); the
float value `math.inf` is modelled with `WithTop`/`WithBot` where it occurs.
Python ints are modelled as ℤ; for positive divisors Python's `%` and `//`
agree with `Int.emod` and `Int.ediv`, which are `%` and `/` on ℤ here.
-/

namespace GridAgent

/-- The four cardinal actions (simple_data.py, class Action, UP=0 RIGHT=1 DOWN=2 LEFT=3). -/
inductive Action where
  | UP
  | RIGHT
  | DOWN
  | LEFT
deriving DecidableEq, Repr

/-- The integer value of an action, as in the Python IntEnum. -/
def Action.toInt : Action → ℤ
  | .UP => 0
  | .RIGHT => 1
  | .DOWN => 2
  | .LEFT => 3

/-- The list `[Action(i) for i in range(Action.MAX_EXCLUSIVE)]` used by the trainers. -/
def actionsList : List Action := [.UP, .RIGHT, .DOWN, .LEFT]

/-- A two-dimensional vector of integers (simple_data.py, class Vec2D). -/
structure Vec2D where
  x : ℤ := 0
  y : ℤ := 0
deriving DecidableEq, Repr

/-- Vec2D.move: UP increments y, RIGHT increments x, DOWN decrements y, LEFT decrements x. -/
def Vec2D.move (pos : Vec2D) (action : Action) : Vec2D :=
  match action with
  | .UP => { pos with y := pos.y + 1 }
  | .RIGHT => { pos with x := pos.x + 1 }
  | .DOWN => { pos with y := pos.y - 1 }
  | .LEFT => { pos with x := pos.x - 1 }

/-- Vec2D.undo: the inverse mutation of Vec2D.move. -/
def Vec2D.undo (pos : Vec2D) (action : Action) : Vec2D :=
  match action with
  | .UP => { pos with y := pos.y - 1 }
  | .RIGHT => { pos with x := pos.x - 1 }
  | .DOWN => { pos with y := pos.y + 1 }
  | .LEFT => { pos with x := pos.x + 1 }

/-- A rectangular obstacle (simple_data.py, class Obstacle). -/
structure Obstacle where
  origin : Vec2D := {}
  extent : Vec2D := {}
deriving DecidableEq, Repr

/-- Obstacle.is_inside: collision test of a point with the obstacle. -/
def Obstacle.is_inside (ob : Obstacle) (pos : Vec2D) : Bool :=
  decide (pos.x ≥ ob.origin.x ∧ pos.x < ob.origin.x + ob.extent.x ∧
    pos.y ≥ ob.origin.y ∧ pos.y < ob.origin.y + ob.extent.y)

/-- Obstacle.is_inside_bounds: the obstacle fits inside the map rectangle. -/
def Obstacle.is_inside_bounds (ob : Obstacle) (map_size : Vec2D) : Bool :=
  decide (ob.origin.x > -1 ∧ ob.origin.x + ob.extent.x ≤ map_size.x ∧
    ob.origin.y > -1 ∧ ob.origin.y + ob.extent.y ≤ map_size.y)

/-- Products of the grid dimensions (simple_data.py, class MapSize). -/
structure MapSize where
  N : ℤ
  N2 : ℤ
  N3 : ℤ
  M : ℤ
  M2 : ℤ
  NM : ℤ
  N2M : ℤ
  N2M2 : ℤ
  N3M2 : ℤ
  N3M3 : ℤ
deriving DecidableEq, Repr

/-- Mirrors MapSize.__init__. The source assigns M2 twice (first M·M, then (M·M)·M),
so the stored M2 is in fact M³, and the declared field M3 is never assigned at all;
M3 is therefore not modelled. Neither value is read by any code under verification. -/
def mapSizeInit (N M : ℤ) : MapSize where
  N := N
  N2 := N * N
  N3 := N * N * N
  M := M
  M2 := M * M * M
  NM := N * M
  N2M := N * M * N
  N2M2 := N * M * N * M
  N3M2 := N * M * N * M * N
  N3M3 := N * M * N * M * N * M

/-- The joint state: agent, opponent and target positions (state.py, class State). -/
structure State where
  agent_pos : Vec2D := {}
  opponent_pos : Vec2D := {}
  target_pos : Vec2D := {}
deriving DecidableEq, Repr

/-- State.to_index: the packed index of the joint state. -/
def State.to_index (s : State) (map_size : MapSize) : ℤ :=
  s.agent_pos.x + s.agent_pos.y * map_size.N +
    s.opponent_pos.x * map_size.NM + s.opponent_pos.y * map_size.N2M +
    s.target_pos.x * map_size.N2M2 + s.target_pos.y * map_size.N3M2

/-- State.from_index: unpack a packed index into a joint state. -/
def State.from_index (index : ℤ) (map_size : MapSize) : State where
  agent_pos :=
    { x := index % map_size.N
      y := index % map_size.NM / map_size.N }
  opponent_pos :=
    { x := index % map_size.N2M / map_size.NM
      y := index % map_size.N2M2 / map_size.N2M }
  target_pos :=
    { x := index % map_size.N3M2 / map_size.N2M2
      y := index / map_size.N3M2 }

/-- State.__next_pos: advance a position in the agent-fastest enumeration. -/
def nextPos (pos : Vec2D) (map_size : MapSize) : Vec2D × Bool :=
  if pos.x + 1 < map_size.N then ({ pos with x := pos.x + 1 }, true)
  else if pos.y + 1 < map_size.M then ({ x := 0, y := pos.y + 1 }, true)
  else ({ x := 0, y := 0 }, false)

/-- State.next_state: advance to the next state (agent fastest, then opponent, then target).
Returns false when the state wrapped around to the all-zero state. -/
def State.next_state (s : State) (map_size : MapSize) : State × Bool :=
  match nextPos s.agent_pos map_size with
  | (p, true) => ({ s with agent_pos := p }, true)
  | (p, false) =>
    match nextPos s.opponent_pos map_size with
    | (q, true) => ({ s with agent_pos := p, opponent_pos := q }, true)
    | (q, false) =>
      match nextPos s.target_pos map_size with
      | (r, b) => ({ agent_pos := p, opponent_pos := q, target_pos := r }, b)

/-- State.move_checking_bounds: move `pos` by `action`; if the result leaves the grid the
move is reverted and false is returned. -/
def moveCheckingBounds (pos : Vec2D) (action : Action) (map_size : MapSize) : Vec2D × Bool :=
  let moved := pos.move action
  let is_within_bounds : Bool :=
    match action with
    | .UP => decide (moved.y < map_size.M)
    | .RIGHT => decide (moved.x < map_size.N)
    | .DOWN => decide (moved.y > -1)
    | .LEFT => decide (moved.x > -1)
  if is_within_bounds then (moved, true) else (moved.undo action, false)

/-- A position has both components inside the N×M grid. -/
def posInRange (pos : Vec2D) (N M : ℤ) : Prop :=
  0 ≤ pos.x ∧ pos.x < N ∧ 0 ≤ pos.y ∧ pos.y < M

instance (pos : Vec2D) (N M : ℤ) : Decidable (posInRange pos N M) := by
  unfold posInRange; infer_instance

/-- All three positions of the joint state are inside the N×M grid. -/
def stateInRange (s : State) (N M : ℤ) : Prop :=
  posInRange s.agent_pos N M ∧ posInRange s.opponent_pos N M ∧ posInRange s.target_pos N M

instance (s : State) (N M : ℤ) : Decidable (stateInRange s N M) := by
  unfold stateInRange; infer_instance

/-- Undoing a move restores the original position. -/
theorem undo_move (pos : Vec2D) (action : Action) : (pos.move action).undo action = pos := by
  cases action <;> simp [Vec2D.move, Vec2D.undo]

/-- Mixed-radix digit extraction: if 0 ≤ r < d then (r + d·q) mod d = r and (r + d·q) div d = q. -/
theorem digit_extract (r d q : ℤ) (h0 : 0 ≤ r) (h1 : r < d) :
    (r + d * q) % d = r ∧ (r + d * q) / d = q := by
  have hd : d ≠ 0 := by omega
  constructor
  · rw [Int.add_mul_emod_self_left, Int.emod_eq_of_lt h0 h1]
  · rw [Int.add_mul_ediv_left _ _ hd, Int.ediv_eq_zero_of_lt h0 h1, zero_add]

/-- Combining a digit below b with a digit below d stays below b·d. -/
theorem mixed_bound (a b c d : ℤ) (h0 : 0 ≤ a) (h1 : a < b) (h2 : 0 ≤ c) (h3 : c < d) :
    0 ≤ a + b * c ∧ a + b * c < b * d := by
  constructor
  · nlinarith
  · nlinarith

/-- Round-trip helper: from_index inverts to_index on in-range states. -/
theorem from_index_to_index (N M : ℤ) (s : State)
    (hN : 0 < N) (hM : 0 < M) (hs : stateInRange s N M) :
    State.from_index (s.to_index (mapSizeInit N M)) (mapSizeInit N M) = s := by
  obtain ⟨⟨ax, ay⟩, ⟨ox, oy⟩, ⟨tx, ty⟩⟩ := s
  obtain ⟨⟨hax0, hax1, hay0, hay1⟩, ⟨hox0, hox1, hoy0, hoy1⟩, ⟨htx0, htx1, hty0, hty1⟩⟩ := hs
  -- partial sums of the mixed-radix expansion and their bounds
  have b1 := mixed_bound ax N ay M hax0 hax1 hay0 hay1
  have b2 := mixed_bound (ax + N * ay) (N * M) ox N b1.1 b1.2 hox0 hox1
  have b3 := mixed_bound (ax + N * ay + N * M * ox) (N * M * N) oy M b2.1 b2.2 hoy0 hoy1
  have b4 := mixed_bound (ax + N * ay + N * M * ox + N * M * N * oy) (N * M * N * M) tx N
    b3.1 b3.2 htx0 htx1
  simp only [State.from_index, State.to_index, mapSizeInit, State.mk.injEq, Vec2D.mk.injEq]
  have r1 : ax + ay * N + ox * (N * M) + oy * (N * M * N) + tx * (N * M * N * M) +
      ty * (N * M * N * M * N) =
      ax + N * (ay + M * (ox + N * (oy + M * (tx + N * ty)))) := by ring
  have r2 : ax + ay * N + ox * (N * M) + oy * (N * M * N) + tx * (N * M * N * M) +
      ty * (N * M * N * M * N) =
      (ax + N * ay) + N * M * (ox + N * (oy + M * (tx + N * ty))) := by ring
  have r3 : ax + ay * N + ox * (N * M) + oy * (N * M * N) + tx * (N * M * N * M) +
      ty * (N * M * N * M * N) =
      (ax + N * ay + N * M * ox) + N * M * N * (oy + M * (tx + N * ty)) := by ring
  have r4 : ax + ay * N + ox * (N * M) + oy * (N * M * N) + tx * (N * M * N * M) +
      ty * (N * M * N * M * N) =
      (ax + N * ay + N * M * ox + N * M * N * oy) + N * M * N * M * (tx + N * ty) := by ring
  have r5 : ax + ay * N + ox * (N * M) + oy * (N * M * N) + tx * (N * M * N * M) +
      ty * (N * M * N * M * N) =
      (ax + N * ay + N * M * ox + N * M * N * oy + N * M * N * M * tx) +
        N * M * N * M * N * ty := by ring
  refine ⟨⟨?_, ?_⟩, ⟨?_, ?_⟩, ⟨?_, ?_⟩⟩
  · rw [r1, (digit_extract _ _ _ hax0 hax1).1]
  · rw [r2, (digit_extract _ _ _ b1.1 b1.2).1, (digit_extract _ _ _ hax0 hax1).2]
  · rw [r3, (digit_extract _ _ _ b2.1 b2.2).1, (digit_extract _ _ _ b1.1 b1.2).2]
  · rw [r4, (digit_extract _ _ _ b3.1 b3.2).1, (digit_extract _ _ _ b2.1 b2.2).2]
  · rw [r5, (digit_extract _ _ _ b4.1 b4.2).1, (digit_extract _ _ _ b3.1 b3.2).2]
  · rw [r5, (digit_extract _ _ _ b4.1 b4.2).2]

/-- The packed index of an in-range state is non-negative and below N·M·N·M·N·M. -/
theorem to_index_bounds (N M : ℤ) (s : State)
    (hs : stateInRange s N M) :
    0 ≤ s.to_index (mapSizeInit N M) ∧
      s.to_index (mapSizeInit N M) < N * M * N * M * N * M := by
  obtain ⟨⟨ax, ay⟩, ⟨ox, oy⟩, ⟨tx, ty⟩⟩ := s
  obtain ⟨⟨hax0, hax1, hay0, hay1⟩, ⟨hox0, hox1, hoy0, hoy1⟩, ⟨htx0, htx1, hty0, hty1⟩⟩ := hs
  have b1 := mixed_bound ax N ay M hax0 hax1 hay0 hay1
  have b2 := mixed_bound (ax + N * ay) (N * M) ox N b1.1 b1.2 hox0 hox1
  have b3 := mixed_bound (ax + N * ay + N * M * ox) (N * M * N) oy M b2.1 b2.2 hoy0 hoy1
  have b4 := mixed_bound (ax + N * ay + N * M * ox + N * M * N * oy) (N * M * N * M) tx N
    b3.1 b3.2 htx0 htx1
  have b5 := mixed_bound (ax + N * ay + N * M * ox + N * M * N * oy + N * M * N * M * tx)
    (N * M * N * M * N) ty M b4.1 b4.2 hty0 hty1
  have hidx : State.to_index ⟨⟨ax, ay⟩, ⟨ox, oy⟩, ⟨tx, ty⟩⟩ (mapSizeInit N M) =
      ax + N * ay + N * M * ox + N * M * N * oy + N * M * N * M * tx +
        N * M * N * M * N * ty := by
    simp only [State.to_index, mapSizeInit]
    ring
  rw [hidx]
  exact ⟨b5.1, by linarith [b5.2]⟩

/-- to_index is injective on in-range states (for positive grid sizes). -/
theorem to_index_inj (N M : ℤ) (s t : State)
    (hN : 0 < N) (hM : 0 < M) (hs : stateInRange s N M) (ht : stateInRange t N M)
    (h : s.to_index (mapSizeInit N M) = t.to_index (mapSizeInit N M)) : s = t := by
  have h1 := from_index_to_index N M s hN hM hs
  have h2 := from_index_to_index N M t hN hM ht
  rw [← h1, ← h2, h]

/-- Claim C3: for every joint state whose three positions have components in range
([0,N) for x, [0,M) for y) and every positive grid size N×M, unpacking the packed
index of the state yields the state again:
State.from_index (State.to_index S map_size) map_size = S. -/
theorem state_index_round_trip (N M : ℤ) (s : State)
    (hN : 0 < N) (hM : 0 < M) (hs : stateInRange s N M) :
    State.from_index (s.to_index (mapSizeInit N M)) (mapSizeInit N M) = s :=
  from_index_to_index N M s hN hM hs

/-- Witness for claim C3 at the concrete grid 2×2 and a concrete in-range state. -/
theorem state_index_round_trip_witness :
    (0 : ℤ) < 2 ∧ stateInRange ⟨⟨1, 0⟩, ⟨0, 1⟩, ⟨1, 1⟩⟩ 2 2 ∧
      State.from_index
        (State.to_index ⟨⟨1, 0⟩, ⟨0, 1⟩, ⟨1, 1⟩⟩ (mapSizeInit 2 2)) (mapSizeInit 2 2) =
        ⟨⟨1, 0⟩, ⟨0, 1⟩, ⟨1, 1⟩⟩ :=
  ⟨by decide, by decide,
    state_index_round_trip 2 2 ⟨⟨1, 0⟩, ⟨0, 1⟩, ⟨1, 1⟩⟩ (by decide) (by decide) (by decide)⟩

/-! Valid state space construction (data_structs/valid_state_space.py). -/

/-- ValidStateSpace.__is_state_valid: the state is invalid when target and opponent
overlap or any of the three positions collides with an obstacle. Bounds are not
checked here (the build enumeration only produces in-bounds states). -/
def isStateValid (state : State) (obstacles : List Obstacle) : Bool :=
  if state.target_pos = state.opponent_pos then false
  else ! obstacles.any fun obstacle =>
    obstacle.is_inside state.agent_pos || obstacle.is_inside state.opponent_pos ||
      obstacle.is_inside state.target_pos

/-- The while-loop of ValidStateSpace.__init__: repeatedly advance the state with
next_state, incrementing the packed-index counter, and append the counter whenever the
state is valid. The fuel argument only bounds the recursion; the loop exits through
next_state returning false. -/
def buildLoop (obstacles : List Obstacle) (map_size : MapSize) :
    State → ℤ → ℕ → List ℤ
  | _, _, 0 => []
  | state, state_index, fuel + 1 =>
    match state.next_state map_size with
    | (state', true) =>
      (if isStateValid state' obstacles then [state_index + 1] else []) ++
        buildLoop obstacles map_size state' (state_index + 1) fuel
    | (_, false) => []

/-- The list of packed indices stored in the backing array by ValidStateSpace.__init__,
starting from State() (the all-zero state) and counter 0. The fuel N³M³ is exactly the
number of next_state calls the source loop makes for a positive N×M grid. -/
def vssIndexList (map_size : Vec2D) (obstacles : List Obstacle) : List ℤ :=
  buildLoop obstacles (mapSizeInit map_size.x map_size.y) ⟨⟨0, 0⟩, ⟨0, 0⟩, ⟨0, 0⟩⟩ 0
    (mapSizeInit map_size.x map_size.y).N3M3.toNat

/-- next_state either steps to the in-range successor (packed index + 1), or wraps to
the all-zero state exactly at the last packed index. -/
theorem next_state_cases (N M : ℤ) (hN : 0 < N) (hM : 0 < M) (s : State)
    (hs : stateInRange s N M) :
    (∃ s', s.next_state (mapSizeInit N M) = (s', true) ∧ stateInRange s' N M ∧
      s'.to_index (mapSizeInit N M) = s.to_index (mapSizeInit N M) + 1) ∨
    (s.next_state (mapSizeInit N M) = (⟨⟨0, 0⟩, ⟨0, 0⟩, ⟨0, 0⟩⟩, false) ∧
      s.to_index (mapSizeInit N M) = N * M * N * M * N * M - 1) := by
  obtain ⟨⟨ax, ay⟩, ⟨ox, oy⟩, ⟨tx, ty⟩⟩ := s
  simp only [stateInRange, posInRange] at hs
  obtain ⟨⟨hax0, hax1, hay0, hay1⟩, ⟨hox0, hox1, hoy0, hoy1⟩, ⟨htx0, htx1, hty0, hty1⟩⟩ := hs
  simp only [State.next_state, nextPos, mapSizeInit]
  by_cases c1 : ax + 1 < N
  · refine Or.inl ⟨⟨⟨ax + 1, ay⟩, ⟨ox, oy⟩, ⟨tx, ty⟩⟩, ?_, ?_, ?_⟩
    · simp [c1]
    · simp only [stateInRange, posInRange]
      omega
    · simp only [State.to_index, mapSizeInit]
      ring
  · have hax : ax = N - 1 := by omega
    subst hax
    by_cases c2 : ay + 1 < M
    · refine Or.inl ⟨⟨⟨0, ay + 1⟩, ⟨ox, oy⟩, ⟨tx, ty⟩⟩, ?_, ?_, ?_⟩
      · simp [c1, c2]
      · simp only [stateInRange, posInRange]; omega
      · simp only [State.to_index, mapSizeInit]
        ring
    · have hay : ay = M - 1 := by omega
      subst hay
      by_cases c3 : ox + 1 < N
      · refine Or.inl ⟨⟨⟨0, 0⟩, ⟨ox + 1, oy⟩, ⟨tx, ty⟩⟩, ?_, ?_, ?_⟩
        · simp [c1, c2, c3]
        · simp only [stateInRange, posInRange]; omega
        · simp only [State.to_index, mapSizeInit]
          ring
      · have hox : ox = N - 1 := by omega
        subst hox
        by_cases c4 : oy + 1 < M
        · refine Or.inl ⟨⟨⟨0, 0⟩, ⟨0, oy + 1⟩, ⟨tx, ty⟩⟩, ?_, ?_, ?_⟩
          · simp [c1, c2, c3, c4]
          · simp only [stateInRange, posInRange]; omega
          · simp only [State.to_index, mapSizeInit]
            ring
        · have hoy : oy = M - 1 := by omega
          subst hoy
          by_cases c5 : tx + 1 < N
          · refine Or.inl ⟨⟨⟨0, 0⟩, ⟨0, 0⟩, ⟨tx + 1, ty⟩⟩, ?_, ?_, ?_⟩
            · simp [c1, c2, c3, c4, c5]
            · simp only [stateInRange, posInRange]; omega
            · simp only [State.to_index, mapSizeInit]
              ring
          · have htx : tx = N - 1 := by omega
            subst htx
            by_cases c6 : ty + 1 < M
            · refine Or.inl ⟨⟨⟨0, 0⟩, ⟨0, 0⟩, ⟨0, ty + 1⟩⟩, ?_, ?_, ?_⟩
              · simp [c1, c2, c3, c4, c5, c6]
              · simp only [stateInRange, posInRange]; omega
              · simp only [State.to_index, mapSizeInit]
                ring
            · have hty : ty = M - 1 := by omega
              subst hty
              refine Or.inr ⟨by simp [c1, c2, c3, c4, c5, c6], ?_⟩
              simp only [State.to_index, mapSizeInit]
              ring

/-- Every element produced by buildLoop exceeds the entry counter, and the produced
list is strictly increasing. -/
theorem buildLoop_pairwise (obstacles : List Obstacle) (map_size : MapSize) :
    ∀ (fuel : ℕ) (s : State) (idx : ℤ),
      (∀ k ∈ buildLoop obstacles map_size s idx fuel, idx < k) ∧
        List.Pairwise (· < ·) (buildLoop obstacles map_size s idx fuel) := by
  intro fuel
  induction fuel with
  | zero => intro s idx; simp [buildLoop]
  | succ fuel ih =>
    intro s idx
    rcases hns : s.next_state map_size with ⟨s', b⟩
    cases b
    case false =>
      simp [buildLoop, hns]
    case true =>
      simp only [buildLoop, hns]
      obtain ⟨ihb, ihp⟩ := ih s' (idx + 1)
      constructor
      · intro k hk
        rcases List.mem_append.mp hk with hk | hk
        · rcases em (isStateValid s' obstacles = true) with hv | hv
          · rw [if_pos hv] at hk
            simp only [List.mem_singleton] at hk
            omega
          · rw [if_neg hv] at hk
            simp at hk
        · have := ihb k hk
          omega
      · rcases em (isStateValid s' obstacles = true) with hv | hv
        · rw [if_pos hv]
          refine List.pairwise_append.mpr ⟨List.pairwise_singleton _ _, ihp, ?_⟩
          intro a ha b hb
          simp only [List.mem_singleton] at ha
          subst ha
          exact ihb b hb
        · rw [if_neg hv]
          simpa using ihp

/-- buildLoop, entered with counter equal to the packed index of the current state,
yields exactly the packed indices of the valid in-range states beyond that counter. -/
theorem buildLoop_mem (N M : ℤ) (hN : 0 < N) (hM : 0 < M) (obstacles : List Obstacle) :
    ∀ (fuel : ℕ) (s : State), stateInRange s N M →
      N * M * N * M * N * M - s.to_index (mapSizeInit N M) ≤ (fuel : ℤ) →
      ∀ k : ℤ,
        (k ∈ buildLoop obstacles (mapSizeInit N M) s (s.to_index (mapSizeInit N M)) fuel ↔
          ∃ S : State, stateInRange S N M ∧ isStateValid S obstacles = true ∧
            S.to_index (mapSizeInit N M) = k ∧ s.to_index (mapSizeInit N M) < k) := by
  intro fuel
  induction fuel with
  | zero =>
    intro s hs hf k
    obtain ⟨h0, h1⟩ := to_index_bounds N M s hs
    simp only [Nat.cast_zero] at hf
    simp only [buildLoop, List.not_mem_nil, false_iff, not_exists]
    rintro S ⟨hS1, hS2, hS3, hS4⟩
    obtain ⟨hb0, hb1⟩ := to_index_bounds N M S hS1
    omega
  | succ fuel ih =>
    intro s hs hf k
    rcases next_state_cases N M hN hM s hs with ⟨s', hns, hs', hidx⟩ | ⟨hns, hidx⟩
    · simp only [buildLoop, hns]
      have hf' : N * M * N * M * N * M - s'.to_index (mapSizeInit N M) ≤ (fuel : ℤ) := by
        push_cast at hf ⊢
        omega
      have ihk := ih s' hs' hf'
      constructor
      · intro hk
        rcases List.mem_append.mp hk with hk | hk
        · rcases em (isStateValid s' obstacles = true) with hv | hv
          · rw [if_pos hv] at hk
            simp only [List.mem_singleton] at hk
            exact ⟨s', hs', hv, by omega, by omega⟩
          · rw [if_neg hv] at hk
            simp at hk
        · rw [← hidx] at hk
          obtain ⟨S, hS1, hS2, hS3, hS4⟩ := (ihk k).mp hk
          exact ⟨S, hS1, hS2, hS3, by omega⟩
      · rintro ⟨S, hS1, hS2, hS3, hS4⟩
        rcases em (S.to_index (mapSizeInit N M) = s.to_index (mapSizeInit N M) + 1) with
          heq | hneq
        · have hSs' : S = s' := to_index_inj N M S s' hN hM hS1 hs' (by omega)
          subst hSs'
          rw [if_pos hS2]
          exact List.mem_append.mpr (Or.inl (by simp; omega))
        · refine List.mem_append.mpr (Or.inr ?_)
          rw [← hidx]
          exact (ihk k).mpr ⟨S, hS1, hS2, hS3, by omega⟩
    · simp only [buildLoop, hns, List.not_mem_nil, false_iff, not_exists]
      rintro S ⟨hS1, hS2, hS3, hS4⟩
      obtain ⟨hb0, hb1⟩ := to_index_bounds N M S hS1
      omega

/-- Full characterization of the backing array: strictly increasing, contains exactly
the packed indices of valid in-range states. -/
theorem vssIndexList_spec (map_size : Vec2D) (obstacles : List Obstacle)
    (hx : 0 < map_size.x) (hy : 0 < map_size.y) :
    List.Pairwise (· < ·) (vssIndexList map_size obstacles) ∧
      (∀ S : State, stateInRange S map_size.x map_size.y →
        (S.to_index (mapSizeInit map_size.x map_size.y) ∈ vssIndexList map_size obstacles ↔
          isStateValid S obstacles = true)) ∧
      (∀ k ∈ vssIndexList map_size obstacles, ∃ S : State,
        stateInRange S map_size.x map_size.y ∧ isStateValid S obstacles = true ∧
          S.to_index (mapSizeInit map_size.x map_size.y) = k) := by
  set N := map_size.x
  set M := map_size.y
  have hzr : stateInRange ⟨⟨0, 0⟩, ⟨0, 0⟩, ⟨0, 0⟩⟩ N M :=
    ⟨⟨le_refl 0, hx, le_refl 0, hy⟩, ⟨le_refl 0, hx, le_refl 0, hy⟩,
      ⟨le_refl 0, hx, le_refl 0, hy⟩⟩
  have hz : State.to_index ⟨⟨0, 0⟩, ⟨0, 0⟩, ⟨0, 0⟩⟩ (mapSizeInit N M) = 0 := by
    simp [State.to_index, mapSizeInit]
  have htot : (mapSizeInit N M).N3M3 = N * M * N * M * N * M := rfl
  have htotpos : 0 < N * M * N * M * N * M := by positivity
  have hfuel : N * M * N * M * N * M -
      State.to_index ⟨⟨0, 0⟩, ⟨0, 0⟩, ⟨0, 0⟩⟩ (mapSizeInit N M) ≤
      (((mapSizeInit N M).N3M3.toNat : ℕ) : ℤ) := by
    rw [hz, htot, Int.toNat_of_nonneg (le_of_lt htotpos)]
    omega
  have hmem := fun k => by
    have := buildLoop_mem N M hx hy obstacles (mapSizeInit N M).N3M3.toNat
      ⟨⟨0, 0⟩, ⟨0, 0⟩, ⟨0, 0⟩⟩ hzr hfuel k
    rwa [hz] at this
  have harr : vssIndexList map_size obstacles =
      buildLoop obstacles (mapSizeInit N M) ⟨⟨0, 0⟩, ⟨0, 0⟩, ⟨0, 0⟩⟩ 0
        (mapSizeInit N M).N3M3.toNat := rfl
  refine ⟨?_, ?_, ?_⟩
  · rw [harr]
    exact (buildLoop_pairwise obstacles (mapSizeInit N M) _ _ 0).2
  · intro S hS
    rw [harr]
    constructor
    · intro hmemS
      obtain ⟨S2, h1, h2, h3, _⟩ := (hmem _).mp hmemS
      have : S2 = S := to_index_inj N M S2 S hx hy h1 hS h3
      rwa [← this]
    · intro hv
      refine (hmem _).mpr ⟨S, hS, hv, rfl, ?_⟩
      obtain ⟨hb0, _⟩ := to_index_bounds N M S hS
      rcases lt_or_eq_of_le hb0 with h | h
      · exact h
      · exfalso
        have : S = ⟨⟨0, 0⟩, ⟨0, 0⟩, ⟨0, 0⟩⟩ :=
          to_index_inj N M S _ hx hy hS hzr (by rw [hz, ← h])
        rw [this] at hv
        simp [isStateValid] at hv
  · intro k hk
    rw [harr] at hk
    obtain ⟨S, h1, h2, h3, _⟩ := (hmem k).mp hk
    exact ⟨S, h1, h2, h3⟩

/-- Claim C4: for every positive grid size and every obstacle list, the backing array
built by ValidStateSpace.__init__ is strictly increasing, an in-range state's packed
index appears in it exactly when the state satisfies the validity conditions
(target ≠ opponent and no position inside any obstacle), and every element of it is the
packed index of some valid in-range state. -/
theorem vss_array_exact (map_size : Vec2D) (obstacles : List Obstacle)
    (hx : 0 < map_size.x) (hy : 0 < map_size.y) :
    List.Pairwise (· < ·) (vssIndexList map_size obstacles) ∧
      (∀ S : State, stateInRange S map_size.x map_size.y →
        (S.to_index (mapSizeInit map_size.x map_size.y) ∈ vssIndexList map_size obstacles ↔
          isStateValid S obstacles = true)) ∧
      (∀ k ∈ vssIndexList map_size obstacles, ∃ S : State,
        stateInRange S map_size.x map_size.y ∧ isStateValid S obstacles = true ∧
          S.to_index (mapSizeInit map_size.x map_size.y) = k) :=
  vssIndexList_spec map_size obstacles hx hy

/-- Witness for claim C4 at a concrete 2×2 grid with one obstacle cell. -/
theorem vss_array_exact_witness :
    (0 : ℤ) < 2 ∧
      (List.Pairwise (· < ·) (vssIndexList ⟨2, 2⟩ [⟨⟨0, 0⟩, ⟨1, 1⟩⟩]) ∧
        (∀ S : State, stateInRange S 2 2 →
          (S.to_index (mapSizeInit 2 2) ∈ vssIndexList ⟨2, 2⟩ [⟨⟨0, 0⟩, ⟨1, 1⟩⟩] ↔
            isStateValid S [⟨⟨0, 0⟩, ⟨1, 1⟩⟩] = true)) ∧
        (∀ k ∈ vssIndexList ⟨2, 2⟩ [⟨⟨0, 0⟩, ⟨1, 1⟩⟩], ∃ S : State,
          stateInRange S 2 2 ∧ isStateValid S [⟨⟨0, 0⟩, ⟨1, 1⟩⟩] = true ∧
            S.to_index (mapSizeInit 2 2) = k)) :=
  ⟨by decide, vss_array_exact ⟨2, 2⟩ [⟨⟨0, 0⟩, ⟨1, 1⟩⟩] (by decide) (by decide)⟩

/-! ValidStateSpace operations: binary search, LRU caches, lookups
(data_structs/valid_state_space.py). -/

/-- List indexing with Python semantics (a negative index wraps from the end). Only
in-range accesses occur on the paths under verification. -/
def pyGet (arr : List ℤ) (k : ℤ) : ℤ :=
  if k < 0 then arr.getD ((arr.length : ℤ) + k).toNat 0 else arr.getD k.toNat 0

/-- ValidStateSpace.__binary_search: the while loop over the closed interval [i, j],
with explicit fuel (the interval shrinks at every step, so any fuel beyond the initial
interval length is never consumed). -/
def binarySearchAux (arr : List ℤ) (state_index : ℤ) : ℤ → ℤ → ℕ → Bool × ℤ
  | _, j, 0 => (false, j)
  | i, j, fuel + 1 =>
    if i ≤ j then
      let k := (i + j) / 2
      let retrieved_index := pyGet arr k
      if retrieved_index = state_index then (true, k)
      else if retrieved_index < state_index then binarySearchAux arr state_index (k + 1) j fuel
      else binarySearchAux arr state_index i (k - 1) fuel
    else (false, j)

/-- ValidStateSpace.__binary_search entered with i = 0 and j = space_size - 1. -/
def binarySearch (arr : List ℤ) (state_index : ℤ) : Bool × ℤ :=
  binarySearchAux arr state_index 0 ((arr.length : ℤ) - 1) (arr.length + 1)

/-- An insertion-ordered map (Python OrderedDict) as an association list. -/
abbrev Cache := List (ℤ × ℤ)

/-- OrderedDict.get. -/
def odGet (c : Cache) (key : ℤ) : Option ℤ :=
  (c.find? fun p => decide (p.1 = key)).map (·.2)

/-- Key membership test (`key in od`). -/
def odContains (c : Cache) (key : ℤ) : Bool :=
  c.any fun p => decide (p.1 = key)

/-- `od[key] = value`: update in place when the key exists, else append at the end. -/
def odSet (c : Cache) (key value : ℤ) : Cache :=
  if odContains c key then c.map fun p => if p.1 = key then (key, value) else p
  else c ++ [(key, value)]

/-- OrderedDict.popitem(last=False): drop the oldest entry. -/
def odPopFront (c : Cache) : Cache := c.drop 1

/-- The two trailing while-loops of __load_near_states_to_cache that evict oldest
entries while a cache is over the bound; fuel c.length suffices since every eviction
shortens the cache. -/
def dropOverMaxAux (max_cache_length : ℤ) : Cache → ℕ → Cache
  | c, 0 => c
  | c, fuel + 1 =>
    if (c.length : ℤ) > max_cache_length then dropOverMaxAux max_cache_length (odPopFront c) fuel
    else c

def dropOverMax (c : Cache) (max_cache_length : ℤ) : Cache :=
  dropOverMaxAux max_cache_length c c.length

/-- The two caches owned by a ValidStateSpace, threaded explicitly. -/
structure Caches where
  valid_cache : Cache
  not_valid_cache : Cache

/-- A constructed ValidStateSpace: map size, backing array (space_size is its length)
and the cache bound 3·N. -/
structure VSS where
  map_size : MapSize
  arr : List ℤ
  max_cache_length : ℤ

/-- ValidStateSpace.__load_near_states_to_cache: opportunistically insert the
neighbouring packed indices into the caches, then evict down to the bound. -/
def loadNearStatesToCache (vss : VSS) (cs : Caches) (state_index valid_state_index : ℤ)
    (is_state_valid : Bool) : Caches :=
  let prev_valid_state_index :=
    if is_state_valid then valid_state_index - 1 else valid_state_index
  let prev_state_index := state_index - 1
  let next_valid_state_index := valid_state_index + 1
  let next_state_index := state_index + 1
  let cs :=
    if prev_valid_state_index > -1 then
      let prev_state_index_found := pyGet vss.arr prev_valid_state_index
      if prev_state_index_found = prev_state_index then
        { cs with valid_cache := odSet cs.valid_cache prev_state_index prev_valid_state_index }
      else
        { valid_cache := odSet cs.valid_cache prev_state_index_found prev_valid_state_index
          not_valid_cache := odSet (odSet cs.not_valid_cache (prev_state_index_found + 1)
            prev_valid_state_index) prev_state_index prev_valid_state_index }
    else
      { cs with
        not_valid_cache := odSet cs.not_valid_cache prev_state_index prev_valid_state_index }
  let cs :=
    if next_valid_state_index < (vss.arr.length : ℤ) then
      let next_state_index_found := pyGet vss.arr next_valid_state_index
      if next_state_index_found = next_state_index then
        { cs with valid_cache := odSet cs.valid_cache next_state_index next_valid_state_index }
      else
        { valid_cache := odSet cs.valid_cache next_state_index_found next_valid_state_index
          not_valid_cache := odSet (odSet cs.not_valid_cache (next_state_index_found - 1)
            valid_state_index) next_state_index valid_state_index }
    else
      { cs with not_valid_cache := odSet cs.not_valid_cache next_state_index valid_state_index }
  { valid_cache := dropOverMax cs.valid_cache vss.max_cache_length
    not_valid_cache := dropOverMax cs.not_valid_cache vss.max_cache_length }

/-- ValidStateSpace.__add_to_valid_cache. -/
def addToValidCache (vss : VSS) (cs : Caches) (state_index valid_state_index : ℤ) : Caches :=
  let cs := { cs with valid_cache := odSet cs.valid_cache state_index valid_state_index }
  let cs := loadNearStatesToCache vss cs state_index valid_state_index true
  if (cs.valid_cache.length : ℤ) = vss.max_cache_length then
    { cs with valid_cache := odPopFront cs.valid_cache }
  else cs

/-- ValidStateSpace.__add_to_not_valid_cache. -/
def addToNotValidCache (vss : VSS) (cs : Caches) (state_index last_smaller_valid_index : ℤ) :
    Caches :=
  let cs :=
    { cs with not_valid_cache := odSet cs.not_valid_cache state_index last_smaller_valid_index }
  let cs := loadNearStatesToCache vss cs state_index last_smaller_valid_index false
  if (cs.not_valid_cache.length : ℤ) = vss.max_cache_length then
    { cs with not_valid_cache := odPopFront cs.not_valid_cache }
  else cs

/-- ValidStateSpace.get_valid_index: consult the valid cache, else binary-search;
returns -1 when the binary search misses. -/
def getValidIndex (vss : VSS) (cs : Caches) (state : State) : ℤ × Caches :=
  let state_index := state.to_index vss.map_size
  match odGet cs.valid_cache state_index with
  | some valid_index => (valid_index, cs)
  | none =>
    let r := binarySearch vss.arr state_index
    if ! r.1 then (-1, cs)
    else (r.2, addToValidCache vss cs state_index r.2)

/-- ValidStateSpace.is_state_outside_obstacles: consult both caches, else binary-search
and record the outcome. -/
def isStateOutsideObstacles (vss : VSS) (cs : Caches) (state : State) : Bool × Caches :=
  let state_index := state.to_index vss.map_size
  if odContains cs.valid_cache state_index then (true, cs)
  else if odContains cs.not_valid_cache state_index then (false, cs)
  else
    let r := binarySearch vss.arr state_index
    let cs' := if r.1 then addToValidCache vss cs state_index r.2
      else addToNotValidCache vss cs state_index r.2
    (r.1, cs')

/-- ValidStateSpace.__is_pos_within_bounds. -/
def isPosWithinBounds (vss : VSS) (pos : Vec2D) : Bool :=
  decide (pos.x > -1 ∧ pos.x < vss.map_size.N ∧ pos.y > -1 ∧ pos.y < vss.map_size.M)

/-- ValidStateSpace.is_state_within_bounds. -/
def isStateWithinBounds (vss : VSS) (state : State) : Bool :=
  isPosWithinBounds vss state.agent_pos && isPosWithinBounds vss state.opponent_pos &&
    isPosWithinBounds vss state.target_pos

/-- Coherence of the valid cache: every entry maps a packed index to its position in
the backing array. -/
def ValidCacheOK (arr : List ℤ) (c : Cache) : Prop :=
  ∀ p ∈ c, ∃ m : ℕ, m < arr.length ∧ (m : ℤ) = p.2 ∧ arr.getD m 0 = p.1

/-- Coherence of the not-valid cache: every key is absent from the backing array. -/
def NotValidCacheOK (arr : List ℤ) (c : Cache) : Prop :=
  ∀ p ∈ c, p.1 ∉ arr

/-- Joint cache coherence. -/
def CachesOK (arr : List ℤ) (cs : Caches) : Prop :=
  ValidCacheOK arr cs.valid_cache ∧ NotValidCacheOK arr cs.not_valid_cache

/-! Structural lemmas about the cache operations. -/

theorem odSet_pred (P : ℤ × ℤ → Prop) (c : Cache) (key value : ℤ)
    (hc : ∀ p ∈ c, P p) (hkv : P (key, value)) : ∀ p ∈ odSet c key value, P p := by
  intro p hp
  unfold odSet at hp
  by_cases hmem : odContains c key
  · rw [if_pos hmem] at hp
    obtain ⟨q, hq, hqp⟩ := List.mem_map.mp hp
    by_cases hqk : q.1 = key
    · rw [if_pos hqk] at hqp
      rw [← hqp]
      exact hkv
    · rw [if_neg hqk] at hqp
      rw [← hqp]
      exact hc q hq
  · rw [if_neg hmem] at hp
    rcases List.mem_append.mp hp with h | h
    · exact hc p h
    · simp only [List.mem_singleton] at h
      rw [h]
      exact hkv

theorem odPopFront_pred (P : ℤ × ℤ → Prop) (c : Cache) (hc : ∀ p ∈ c, P p) :
    ∀ p ∈ odPopFront c, P p := fun p hp => hc p (List.mem_of_mem_drop hp)

theorem dropOverMaxAux_pred (P : ℤ × ℤ → Prop) (m : ℤ) :
    ∀ (fuel : ℕ) (c : Cache), (∀ p ∈ c, P p) → ∀ p ∈ dropOverMaxAux m c fuel, P p := by
  intro fuel
  induction fuel with
  | zero => intro c hc; exact hc
  | succ fuel ih =>
    intro c hc p hp
    unfold dropOverMaxAux at hp
    by_cases hlen : (c.length : ℤ) > m
    · rw [if_pos hlen] at hp
      exact ih (odPopFront c) (odPopFront_pred P c hc) p hp
    · rw [if_neg hlen] at hp
      exact hc p hp

theorem dropOverMax_pred (P : ℤ × ℤ → Prop) (m : ℤ) (c : Cache) (hc : ∀ p ∈ c, P p) :
    ∀ p ∈ dropOverMax c m, P p :=
  dropOverMaxAux_pred P m c.length c hc

theorem odGet_mem (c : Cache) (key value : ℤ) (h : odGet c key = some value) :
    (key, value) ∈ c := by
  unfold odGet at h
  obtain ⟨p, hp, hpv⟩ := Option.map_eq_some'.mp h
  have h1 := List.find?_some hp
  have h2 := List.mem_of_find?_eq_some hp
  simp only [decide_eq_true_eq] at h1
  have : p = (key, value) := by
    obtain ⟨a, b⟩ := p
    simp only at h1 hpv
    rw [h1, hpv]
  rwa [this] at h2

theorem odContains_exists (c : Cache) (key : ℤ) (h : odContains c key = true) :
    ∃ v, (key, v) ∈ c := by
  unfold odContains at h
  obtain ⟨p, hp, hpk⟩ := List.any_eq_true.mp h
  simp only [decide_eq_true_eq] at hpk
  exact ⟨p.2, by rwa [← hpk, Prod.mk.eta]⟩

/-! Lemmas about sorted arrays. -/

theorem sorted_getD_lt (arr : List ℤ) (hsorted : List.Pairwise (· < ·) arr)
    (m1 m2 : ℕ) (h12 : m1 < m2) (h2 : m2 < arr.length) :
    arr.getD m1 0 < arr.getD m2 0 := by
  have h1 : m1 < arr.length := lt_trans h12 h2
  rw [List.getD_eq_getElem arr 0 h1, List.getD_eq_getElem arr 0 h2]
  exact List.pairwise_iff_getElem.mp hsorted m1 m2 h1 h2 h12

theorem sorted_getD_le (arr : List ℤ) (hsorted : List.Pairwise (· < ·) arr)
    (m1 m2 : ℕ) (h12 : m1 ≤ m2) (h2 : m2 < arr.length) :
    arr.getD m1 0 ≤ arr.getD m2 0 := by
  rcases lt_or_eq_of_le h12 with h | h
  · exact le_of_lt (sorted_getD_lt arr hsorted m1 m2 h h2)
  · rw [h]

theorem not_mem_of_getD (arr : List ℤ) (x : ℤ)
    (h : ∀ m : ℕ, m < arr.length → arr.getD m 0 ≠ x) : x ∉ arr := by
  intro hmem
  obtain ⟨m, hm, hx⟩ := List.mem_iff_getElem.mp hmem
  exact h m hm (by rw [List.getD_eq_getElem arr 0 hm]; exact hx)

theorem mem_of_getD (arr : List ℤ) (m : ℕ) (hm : m < arr.length) :
    arr.getD m 0 ∈ arr := by
  rw [List.getD_eq_getElem arr 0 hm]
  exact List.getElem_mem hm

/-- Correctness of the binary-search loop under its interval invariants: a true result
points at the exact position of the target; a false result returns the position of the
last element smaller than the target (or -1), every element at or before it being
smaller and every element after it being larger. -/
theorem binarySearchAux_spec (arr : List ℤ) (hsorted : List.Pairwise (· < ·) arr)
    (tgt : ℤ) :
    ∀ (fuel : ℕ) (i j : ℤ), 0 ≤ i → -1 ≤ j → j < (arr.length : ℤ) →
      (j + 1 - i).toNat < fuel →
      (∀ m : ℕ, m < arr.length → (m : ℤ) < i → arr.getD m 0 < tgt) →
      (∀ m : ℕ, m < arr.length → j < (m : ℤ) → tgt < arr.getD m 0) →
      ((binarySearchAux arr tgt i j fuel).1 = true →
        ∃ m : ℕ, m < arr.length ∧ (m : ℤ) = (binarySearchAux arr tgt i j fuel).2 ∧
          arr.getD m 0 = tgt) ∧
      ((binarySearchAux arr tgt i j fuel).1 = false →
        -1 ≤ (binarySearchAux arr tgt i j fuel).2 ∧
          (binarySearchAux arr tgt i j fuel).2 < (arr.length : ℤ) ∧
          (∀ m : ℕ, m < arr.length → (m : ℤ) ≤ (binarySearchAux arr tgt i j fuel).2 →
            arr.getD m 0 < tgt) ∧
          (∀ m : ℕ, m < arr.length → (binarySearchAux arr tgt i j fuel).2 < (m : ℤ) →
            tgt < arr.getD m 0)) := by
  intro fuel
  induction fuel with
  | zero =>
    intro i j hi hj1 hj2 hfuel hlow hhigh
    omega
  | succ fuel ih =>
    intro i j hi hj1 hj2 hfuel hlow hhigh
    by_cases hij : i ≤ j
    · have hk1 : i ≤ (i + j) / 2 := by omega
      have hk2 : (i + j) / 2 ≤ j := by omega
      have hpy : pyGet arr ((i + j) / 2) = arr.getD ((i + j) / 2).toNat 0 :=
        if_neg (by omega)
      by_cases heq : pyGet arr ((i + j) / 2) = tgt
      · simp only [binarySearchAux, if_pos hij, if_pos heq]
        refine ⟨fun _ => ⟨((i + j) / 2).toNat, by omega, by omega, ?_⟩, by simp⟩
        rw [← hpy, heq]
      · by_cases hlt : pyGet arr ((i + j) / 2) < tgt
        · have hres : binarySearchAux arr tgt i j (fuel + 1) =
              binarySearchAux arr tgt ((i + j) / 2 + 1) j fuel := by
            simp only [binarySearchAux, if_pos hij, if_neg heq, if_pos hlt]
          rw [hres]
          refine ih ((i + j) / 2 + 1) j (by omega) hj1 hj2 (by omega) ?_ hhigh
          intro m hm hmk
          rcases lt_or_le (m : ℤ) i with hmi | hmi
          · exact hlow m hm hmi
          · calc arr.getD m 0 ≤ arr.getD ((i + j) / 2).toNat 0 :=
                sorted_getD_le arr hsorted m ((i + j) / 2).toNat (by omega) (by omega)
              _ < tgt := by rw [← hpy]; exact hlt
        · have hgt : tgt < pyGet arr ((i + j) / 2) := by omega
          have hres : binarySearchAux arr tgt i j (fuel + 1) =
              binarySearchAux arr tgt i ((i + j) / 2 - 1) fuel := by
            simp only [binarySearchAux, if_pos hij, if_neg heq, if_neg hlt]
          rw [hres]
          refine ih i ((i + j) / 2 - 1) hi (by omega) (by omega) (by omega) hlow ?_
          intro m hm hmk
          rcases lt_or_le (j : ℤ) m with hmj | hmj
          · exact hhigh m hm hmj
          · calc tgt < arr.getD ((i + j) / 2).toNat 0 := by rw [← hpy]; exact hgt
              _ ≤ arr.getD m 0 :=
                sorted_getD_le arr hsorted ((i + j) / 2).toNat m (by omega) (by omega)
    · simp only [binarySearchAux, if_neg hij]
      refine ⟨by simp, fun _ => ⟨hj1, hj2, ?_, hhigh⟩⟩
      intro m hm hmj
      exact hlow m hm (by omega)

/-- Binary search, found case: the returned index is the exact position of the target. -/
theorem binarySearch_found (arr : List ℤ) (hsorted : List.Pairwise (· < ·) arr) (tgt : ℤ)
    (h : (binarySearch arr tgt).1 = true) :
    ∃ m : ℕ, m < arr.length ∧ (m : ℤ) = (binarySearch arr tgt).2 ∧ arr.getD m 0 = tgt := by
  have := binarySearchAux_spec arr hsorted tgt (arr.length + 1) 0 ((arr.length : ℤ) - 1)
    (le_refl 0) (by omega) (by omega) (by omega)
    (fun m _ hm => by omega) (fun m hm1 hm2 => by omega)
  exact this.1 h

/-- Binary search, miss case: the returned index separates the smaller elements from
the larger ones, so the target is absent. -/
theorem binarySearch_miss (arr : List ℤ) (hsorted : List.Pairwise (· < ·) arr) (tgt : ℤ)
    (h : (binarySearch arr tgt).1 = false) :
    -1 ≤ (binarySearch arr tgt).2 ∧ (binarySearch arr tgt).2 < (arr.length : ℤ) ∧
      (∀ m : ℕ, m < arr.length → (m : ℤ) ≤ (binarySearch arr tgt).2 → arr.getD m 0 < tgt) ∧
      (∀ m : ℕ, m < arr.length → (binarySearch arr tgt).2 < (m : ℤ) → tgt < arr.getD m 0) := by
  have := binarySearchAux_spec arr hsorted tgt (arr.length + 1) 0 ((arr.length : ℤ) - 1)
    (le_refl 0) (by omega) (by omega) (by omega)
    (fun m _ hm => by omega) (fun m hm1 hm2 => by omega)
  exact this.2 h

/-- A missed binary search means the target is not in the array. -/
theorem binarySearch_miss_not_mem (arr : List ℤ) (hsorted : List.Pairwise (· < ·) arr)
    (tgt : ℤ) (h : (binarySearch arr tgt).1 = false) : tgt ∉ arr := by
  obtain ⟨_, _, hlow, hhigh⟩ := binarySearch_miss arr hsorted tgt h
  refine not_mem_of_getD arr tgt fun m hm => ?_
  rcases le_or_lt (m : ℤ) (binarySearch arr tgt).2 with hc | hc
  · exact ne_of_lt (hlow m hm hc)
  · exact ne_of_gt (hhigh m hm hc)

/-- The binary search finds the target exactly when it is in the array. -/
theorem binarySearch_found_iff (arr : List ℤ) (hsorted : List.Pairwise (· < ·) arr)
    (tgt : ℤ) : (binarySearch arr tgt).1 = true ↔ tgt ∈ arr := by
  constructor
  · intro h
    obtain ⟨m, hm, _, hget⟩ := binarySearch_found arr hsorted tgt h
    rw [← hget]
    exact mem_of_getD arr m hm
  · intro hmem
    by_contra hfound
    exact binarySearch_miss_not_mem arr hsorted tgt (by
      cases hb : (binarySearch arr tgt).1
      · rfl
      · exact absurd hb hfound) hmem

/-- In a strictly sorted array, a value strictly between two adjacent elements is
absent from the array. -/
theorem not_mem_between (arr : List ℤ) (hsorted : List.Pairwise (· < ·) arr)
    (ma : ℕ) (hma : ma + 1 < arr.length) (x : ℤ)
    (h1 : arr.getD ma 0 < x) (h2 : x < arr.getD (ma + 1) 0) : x ∉ arr := by
  refine not_mem_of_getD arr x fun m hm => ?_
  rcases le_or_lt m ma with hc | hc
  · exact ne_of_lt (lt_of_le_of_lt (sorted_getD_le arr hsorted m ma hc (by omega)) h1)
  · exact ne_of_gt (lt_of_lt_of_le h2 (sorted_getD_le arr hsorted (ma + 1) m hc hm))

/-- In a strictly sorted array, a value below the first element is absent. -/
theorem not_mem_below (arr : List ℤ) (hsorted : List.Pairwise (· < ·) arr)
    (x : ℤ) (hlen : 0 < arr.length) (h : x < arr.getD 0 0) : x ∉ arr := by
  refine not_mem_of_getD arr x fun m hm => ?_
  exact ne_of_gt (lt_of_lt_of_le h (sorted_getD_le arr hsorted 0 m (Nat.zero_le m) hm))

/-- In a strictly sorted array, a value above the last element is absent. -/
theorem not_mem_above (arr : List ℤ) (hsorted : List.Pairwise (· < ·) arr)
    (x : ℤ) (hlen : 0 < arr.length) (h : arr.getD (arr.length - 1) 0 < x) : x ∉ arr := by
  refine not_mem_of_getD arr x fun m hm => ?_
  exact ne_of_lt (lt_of_le_of_lt (sorted_getD_le arr hsorted m (arr.length - 1)
    (by omega) (by omega)) h)

/-- __load_near_states_to_cache keeps both caches coherent when called from a valid
insertion (the binary search found state_index at position valid_state_index). -/
theorem loadNear_valid_ok (vss : VSS) (cs : Caches) (si v : ℤ)
    (hsorted : List.Pairwise (· < ·) vss.arr) (hcs : CachesOK vss.arr cs)
    (mv : ℕ) (hmv : mv < vss.arr.length) (hmvv : (mv : ℤ) = v)
    (hmvs : vss.arr.getD mv 0 = si) :
    CachesOK vss.arr (loadNearStatesToCache vss cs si v true) := by
  obtain ⟨hvc, hnc⟩ := hcs
  simp only [loadNearStatesToCache]
  split_ifs
  all_goals refine ⟨dropOverMax_pred _ _ _ ?_, dropOverMax_pred _ _ _ ?_⟩
  all_goals dsimp only
  all_goals
    try (have hp : pyGet vss.arr (v - 1) = vss.arr.getD (v - 1).toNat 0 := if_neg (by omega))
  all_goals
    try (have hq : pyGet vss.arr (v + 1) = vss.arr.getD (v + 1).toNat 0 := if_neg (by omega))
  all_goals
    try (have hpf : vss.arr.getD (v - 1).toNat 0 < si := by
          have h0 := sorted_getD_lt vss.arr hsorted (v - 1).toNat mv (by omega) hmv
          omega)
  all_goals
    try (have hnf : si < vss.arr.getD (v + 1).toNat 0 := by
          have h0 := sorted_getD_lt vss.arr hsorted mv (v + 1).toNat (by omega) (by omega)
          omega)
  all_goals repeat'
    first
    | exact hvc
    | exact hnc
    | exact ⟨(v - 1).toNat, by omega, by omega, by omega⟩
    | exact ⟨(v + 1).toNat, by omega, by omega, by omega⟩
    | refine odSet_pred _ _ _ _ ?_ ?_
    | (refine not_mem_between vss.arr hsorted (v - 1).toNat (by omega) _ (by omega) ?_
       have h1 : (v - 1).toNat + 1 = mv := by omega
       rw [h1, hmvs]
       omega)
    | (refine not_mem_between vss.arr hsorted mv (by omega) _ (by rw [hmvs]; omega) ?_
       have h1 : mv + 1 = (v + 1).toNat := by omega
       rw [h1]
       omega)
    | (refine not_mem_below vss.arr hsorted _ (by omega) ?_
       have h2 : vss.arr.getD mv 0 = si := hmvs
       rw [show mv = 0 from by omega] at h2
       omega)
    | (refine not_mem_above vss.arr hsorted _ (by omega) ?_
       have h2 : vss.arr.getD mv 0 = si := hmvs
       rw [show mv = vss.arr.length - 1 from by omega] at h2
       omega)

/-- __load_near_states_to_cache keeps both caches coherent when called from a
not-valid insertion (the binary search missed state_index; last_smaller_valid_index
separates the smaller array elements from the larger ones). -/
theorem loadNear_invalid_ok (vss : VSS) (cs : Caches) (si v : ℤ)
    (hsorted : List.Pairwise (· < ·) vss.arr) (hcs : CachesOK vss.arr cs)
    (hv1 : -1 ≤ v) (hv2 : v < (vss.arr.length : ℤ))
    (hlow : ∀ m : ℕ, m < vss.arr.length → (m : ℤ) ≤ v → vss.arr.getD m 0 < si)
    (hhigh : ∀ m : ℕ, m < vss.arr.length → v < (m : ℤ) → si < vss.arr.getD m 0) :
    CachesOK vss.arr (loadNearStatesToCache vss cs si v false) := by
  obtain ⟨hvc, hnc⟩ := hcs
  simp only [loadNearStatesToCache, Bool.false_eq_true, if_false]
  split_ifs
  all_goals refine ⟨dropOverMax_pred _ _ _ ?_, dropOverMax_pred _ _ _ ?_⟩
  all_goals dsimp only
  all_goals
    try (have hp : pyGet vss.arr v = vss.arr.getD v.toNat 0 := if_neg (by omega))
  all_goals
    try (have hq : pyGet vss.arr (v + 1) = vss.arr.getD (v + 1).toNat 0 := if_neg (by omega))
  all_goals
    try (have hpf : vss.arr.getD v.toNat 0 < si := hlow v.toNat (by omega) (by omega))
  all_goals
    try (have hnf : si < vss.arr.getD (v + 1).toNat 0 := hhigh (v + 1).toNat (by omega) (by omega))
  all_goals repeat'
    first
    | exact hvc
    | exact hnc
    | exact ⟨v.toNat, by omega, by omega, by omega⟩
    | exact ⟨(v + 1).toNat, by omega, by omega, by omega⟩
    | refine odSet_pred _ _ _ _ ?_ ?_
    | (refine not_mem_of_getD vss.arr _ (fun m hm => ?_)
       rcases le_or_lt (m : ℤ) v with hc | hc
       · have h3 : vss.arr.getD m 0 < si := hlow m hm (by omega)
         try (have h4 : vss.arr.getD m 0 ≤ vss.arr.getD v.toNat 0 :=
           sorted_getD_le vss.arr hsorted m v.toNat (by omega) (by omega))
         omega
       · have h3 : si < vss.arr.getD m 0 := hhigh m hm (by omega)
         try (have h4 : vss.arr.getD (v + 1).toNat 0 ≤ vss.arr.getD m 0 :=
           sorted_getD_le vss.arr hsorted (v + 1).toNat m (by omega) (by omega))
         omega)

/-- __add_to_valid_cache keeps the caches coherent when the inserted pair is exact. -/
theorem addToValidCache_ok (vss : VSS) (cs : Caches) (si v : ℤ)
    (hsorted : List.Pairwise (· < ·) vss.arr) (hcs : CachesOK vss.arr cs)
    (mv : ℕ) (hmv : mv < vss.arr.length) (hmvv : (mv : ℤ) = v)
    (hmvs : vss.arr.getD mv 0 = si) :
    CachesOK vss.arr (addToValidCache vss cs si v) := by
  have h1 : CachesOK vss.arr ⟨odSet cs.valid_cache si v, cs.not_valid_cache⟩ :=
    ⟨odSet_pred _ _ _ _ hcs.1 ⟨mv, hmv, hmvv, hmvs⟩, hcs.2⟩
  have h2 := loadNear_valid_ok vss _ si v hsorted h1 mv hmv hmvv hmvs
  unfold addToValidCache
  dsimp only
  split_ifs with hc
  · exact ⟨odPopFront_pred _ _ h2.1, h2.2⟩
  · exact h2

/-- __add_to_not_valid_cache keeps the caches coherent when entered after a missed
binary search. -/
theorem addToNotValidCache_ok (vss : VSS) (cs : Caches) (si v : ℤ)
    (hsorted : List.Pairwise (· < ·) vss.arr) (hcs : CachesOK vss.arr cs)
    (hv1 : -1 ≤ v) (hv2 : v < (vss.arr.length : ℤ))
    (hlow : ∀ m : ℕ, m < vss.arr.length → (m : ℤ) ≤ v → vss.arr.getD m 0 < si)
    (hhigh : ∀ m : ℕ, m < vss.arr.length → v < (m : ℤ) → si < vss.arr.getD m 0) :
    CachesOK vss.arr (addToNotValidCache vss cs si v) := by
  have hnotmem : si ∉ vss.arr := by
    refine not_mem_of_getD vss.arr si fun m hm => ?_
    rcases le_or_lt (m : ℤ) v with hc | hc
    · exact ne_of_lt (hlow m hm hc)
    · exact ne_of_gt (hhigh m hm hc)
  have h1 : CachesOK vss.arr ⟨cs.valid_cache, odSet cs.not_valid_cache si v⟩ :=
    ⟨hcs.1, odSet_pred _ _ _ _ hcs.2 hnotmem⟩
  have h2 := loadNear_invalid_ok vss _ si v hsorted h1 hv1 hv2 hlow hhigh
  unfold addToNotValidCache
  dsimp only
  split_ifs with hc
  · exact ⟨h2.1, odPopFront_pred _ _ h2.2⟩
  · exact h2

/-- get_valid_index under coherent caches: the caches stay coherent, the result is the
exact position of the packed index in the backing array when the index is present, and
the sentinel -1 when it is absent. -/
theorem getValidIndex_ok (vss : VSS) (cs : Caches) (state : State)
    (hsorted : List.Pairwise (· < ·) vss.arr) (hcs : CachesOK vss.arr cs) :
    CachesOK vss.arr (getValidIndex vss cs state).2 ∧
      (state.to_index vss.map_size ∈ vss.arr →
        ∃ m : ℕ, m < vss.arr.length ∧ (m : ℤ) = (getValidIndex vss cs state).1 ∧
          vss.arr.getD m 0 = state.to_index vss.map_size) ∧
      (state.to_index vss.map_size ∉ vss.arr → (getValidIndex vss cs state).1 = -1) := by
  rcases hget : odGet cs.valid_cache (state.to_index vss.map_size) with _ | valid_index
  · simp only [getValidIndex, hget]
    rcases hb : binarySearch vss.arr (state.to_index vss.map_size) with ⟨found, pos⟩
    cases found
    · have hmiss : (binarySearch vss.arr (state.to_index vss.map_size)).1 = false := by
        rw [hb]
      simp only [Bool.not_false, if_pos]
      refine ⟨hcs, fun hmem => ?_, fun _ => trivial⟩
      exact absurd hmem (binarySearch_miss_not_mem _ hsorted _ hmiss)
    · have hfound : (binarySearch vss.arr (state.to_index vss.map_size)).1 = true := by
        rw [hb]
      obtain ⟨m, hm, hmp, hms⟩ := binarySearch_found _ hsorted _ hfound
      rw [hb] at hmp
      simp only [Bool.not_true, if_neg]
      refine ⟨?_, fun _ => ⟨m, hm, hmp, hms⟩, fun hnot => ?_⟩
      · exact addToValidCache_ok vss cs _ pos hsorted hcs m hm hmp hms
      · exact absurd (hms ▸ mem_of_getD vss.arr m hm) hnot
  · simp only [getValidIndex, hget]
    have hent := hcs.1 _ (odGet_mem _ _ _ hget)
    obtain ⟨m, hm, hmv, hms⟩ := hent
    have hms2 : vss.arr.getD m 0 = state.to_index vss.map_size := hms
    refine ⟨hcs, fun _ => ⟨m, hm, hmv, hms2⟩, fun hnot => ?_⟩
    exact absurd (hms2 ▸ mem_of_getD vss.arr m hm) hnot

/-- is_state_outside_obstacles under coherent caches: the caches stay coherent and the
boolean result is exactly membership of the packed index in the backing array. -/
theorem isStateOutsideObstacles_ok (vss : VSS) (cs : Caches) (state : State)
    (hsorted : List.Pairwise (· < ·) vss.arr) (hcs : CachesOK vss.arr cs) :
    CachesOK vss.arr (isStateOutsideObstacles vss cs state).2 ∧
      ((isStateOutsideObstacles vss cs state).1 = true ↔
        state.to_index vss.map_size ∈ vss.arr) := by
  unfold isStateOutsideObstacles
  dsimp only
  by_cases h1 : odContains cs.valid_cache (state.to_index vss.map_size) = true
  · rw [if_pos h1]
    refine ⟨hcs, ?_⟩
    obtain ⟨v, hv⟩ := odContains_exists _ _ h1
    obtain ⟨m, hm, _, hms⟩ := hcs.1 _ hv
    have hms2 : vss.arr.getD m 0 = state.to_index vss.map_size := hms
    exact iff_of_true rfl (hms2 ▸ mem_of_getD vss.arr m hm)
  · rw [if_neg h1]
    by_cases h2 : odContains cs.not_valid_cache (state.to_index vss.map_size) = true
    · rw [if_pos h2]
      refine ⟨hcs, ?_⟩
      obtain ⟨v, hv⟩ := odContains_exists _ _ h2
      exact iff_of_false Bool.false_ne_true (hcs.2 _ hv)
    · rw [if_neg h2]
      rcases hb : binarySearch vss.arr (state.to_index vss.map_size) with ⟨found, pos⟩
      cases found
      · have hmiss : (binarySearch vss.arr (state.to_index vss.map_size)).1 = false := by
          rw [hb]
        obtain ⟨hp1, hp2, hp3, hp4⟩ := binarySearch_miss _ hsorted _ hmiss
        rw [hb] at hp1 hp2 hp3 hp4
        simp only [if_false, Bool.false_eq_true]
        refine ⟨addToNotValidCache_ok vss cs _ pos hsorted hcs hp1 hp2 hp3 hp4, ?_⟩
        simp only [false_iff]
        exact binarySearch_miss_not_mem _ hsorted _ hmiss
      · have hfound : (binarySearch vss.arr (state.to_index vss.map_size)).1 = true := by
          rw [hb]
        obtain ⟨m, hm, hmp, hms⟩ := binarySearch_found _ hsorted _ hfound
        rw [hb] at hmp
        simp only [if_true]
        refine ⟨addToValidCache_ok vss cs _ pos hsorted hcs m hm hmp hms, ?_⟩
        simp only [true_iff]
        exact hms ▸ mem_of_getD vss.arr m hm

/-- A concrete ValidStateSpace on the 3×1 obstacle-free grid (cache bound 3·N = 9),
used by concrete evaluations. -/
def vss3x1 : VSS where
  map_size := mapSizeInit 3 1
  arr := vssIndexList ⟨3, 1⟩ []
  max_cache_length := 9

/-- Counterexample to claim C5 as stated: for an in-bounds state that is not in the
valid state space, get_valid_index does not fail with any error — it returns the
in-band sentinel -1 (the source docstring: "Return -1 if state is not valid"). -/
theorem get_valid_index_returns_minus_one :
    isStateWithinBounds vss3x1 ⟨⟨0, 0⟩, ⟨0, 0⟩, ⟨0, 0⟩⟩ = true ∧
      (getValidIndex vss3x1 ⟨[], []⟩ ⟨⟨0, 0⟩, ⟨0, 0⟩, ⟨0, 0⟩⟩).1 = -1 := by
  decide

/-- Claim C5 (amended): under coherent caches, get_valid_index returns the exact
position of the state's packed index in the VSS array when that index is present, and
returns the sentinel -1 (instead of raising an error) when the binary search misses. -/
theorem get_valid_index_spec (vss : VSS) (cs : Caches) (state : State)
    (hsorted : List.Pairwise (· < ·) vss.arr) (hcs : CachesOK vss.arr cs) :
    (state.to_index vss.map_size ∈ vss.arr →
      ∃ m : ℕ, m < vss.arr.length ∧ (m : ℤ) = (getValidIndex vss cs state).1 ∧
        vss.arr.getD m 0 = state.to_index vss.map_size) ∧
    (state.to_index vss.map_size ∉ vss.arr → (getValidIndex vss cs state).1 = -1) :=
  (getValidIndex_ok vss cs state hsorted hcs).2

/-- Witness for claim C5 (amended) on the 3×1 grid with empty caches. -/
theorem get_valid_index_spec_witness :
    List.Pairwise (· < ·) vss3x1.arr ∧
      ((State.to_index ⟨⟨0, 0⟩, ⟨1, 0⟩, ⟨2, 0⟩⟩ vss3x1.map_size ∈ vss3x1.arr →
        ∃ m : ℕ, m < vss3x1.arr.length ∧
          (m : ℤ) = (getValidIndex vss3x1 ⟨[], []⟩ ⟨⟨0, 0⟩, ⟨1, 0⟩, ⟨2, 0⟩⟩).1 ∧
          vss3x1.arr.getD m 0 = State.to_index ⟨⟨0, 0⟩, ⟨1, 0⟩, ⟨2, 0⟩⟩ vss3x1.map_size) ∧
      (State.to_index ⟨⟨0, 0⟩, ⟨1, 0⟩, ⟨2, 0⟩⟩ vss3x1.map_size ∉ vss3x1.arr →
        (getValidIndex vss3x1 ⟨[], []⟩ ⟨⟨0, 0⟩, ⟨1, 0⟩, ⟨2, 0⟩⟩).1 = -1)) :=
  ⟨by decide, get_valid_index_spec vss3x1 ⟨[], []⟩ ⟨⟨0, 0⟩, ⟨1, 0⟩, ⟨2, 0⟩⟩ (by decide)
    (by simp [CachesOK, ValidCacheOK, NotValidCacheOK])⟩

/-! Markov transition density (functors/markov_transition_density.py). -/

/-- math.isclose with the default tolerances rel_tol = 1e-9 and abs_tol = 0.0,
on the rational model of Python floats. -/
def mathIsclose (a b : ℚ) : Bool :=
  decide (|a - b| ≤ max ((1 / 1000000000) * max |a| |b|) 0)

/-- The two ValueError kinds raised by
DiscreteDistributionMarkovTransitionDensity.__check_for_errors. -/
inductive DensityError where
  | probabilitiesSumError
  | negativeProbabilityError
deriving DecidableEq, Repr

/-- DiscreteDistributionMarkovTransitionDensity.__check_for_errors: first the sum check,
then the non-negativity check; `some e` models raising, `none` models normal return. -/
def checkForErrors (action_distribution : List ℚ) : Option DensityError :=
  if ¬ mathIsclose action_distribution.sum 1 then some .probabilitiesSumError
  else if action_distribution.any (fun probability => decide (probability < 0)) then
    some .negativeProbabilityError
  else none

/-- DiscreteDistributionMarkovTransitionDensity.__init__: builds the distribution list
[chosen, right, opposite, left] and validates it. -/
def ddmtdInit (chosen_action_probability right_action_probability
    opposite_action_probability left_action_probability : ℚ) : Option DensityError :=
  checkForErrors [chosen_action_probability, right_action_probability,
    opposite_action_probability, left_action_probability]

/-- DiscreteDistributionMarkovTransitionDensity.__call__:
distribution[(action - chosen_action) % Action.MAX_EXCLUSIVE]. -/
def ddmtdCall (action_distribution : List ℚ) (chosen_action action : Action) : ℚ :=
  action_distribution.getD ((action.toInt - chosen_action.toInt) % 4).toNat 0

/-- Claim C7: constructing the discrete-distribution transition density fails if and only
if some probability is negative or the four probabilities do not sum to 1 within the
tight default tolerance of math.isclose; in particular [0.5, 0.3, 0.3, 0.0] is rejected
and the default [0.9, 0.05, 0.0, 0.05] is accepted. -/
theorem ddmtd_construction_check :
    (∀ p0 p1 p2 p3 : ℚ, (ddmtdInit p0 p1 p2 p3).isSome ↔
      (¬ mathIsclose (p0 + p1 + p2 + p3) 1 = true ∨ p0 < 0 ∨ p1 < 0 ∨ p2 < 0 ∨ p3 < 0)) ∧
    (ddmtdInit (5/10) (3/10) (3/10) 0).isSome = true ∧
    ddmtdInit (9/10) (5/100) 0 (5/100) = none := by
  refine ⟨?_, ?_, ?_⟩
  · intro p0 p1 p2 p3
    simp only [ddmtdInit, checkForErrors, List.sum_cons, List.sum_nil, add_zero, zero_add,
      List.any_cons, List.any_nil, ← add_assoc]
    by_cases hclose : mathIsclose (p0 + p1 + p2 + p3) 1 = true
    · rw [if_neg (by simp [hclose])]
      by_cases hneg : p0 < 0 ∨ p1 < 0 ∨ p2 < 0 ∨ p3 < 0
      · rw [if_pos (by simpa using hneg)]
        simpa [hclose] using hneg
      · rw [if_neg (by simpa using hneg)]
        simpa [hclose] using hneg
    · rw [if_pos (by simp [hclose])]
      simp [hclose]
  · have hsum : (5/10 : ℚ) + 3/10 + 3/10 = 11/10 := by norm_num
    have hfar : ¬ mathIsclose (11/10 : ℚ) 1 = true := by
      simp only [mathIsclose, decide_eq_true_eq, not_le]
      rw [show |(11:ℚ)/10 - 1| = 1/10 by
            rw [show (11:ℚ)/10 - 1 = 1/10 by norm_num]
            exact abs_of_nonneg (by norm_num),
        show |(11:ℚ)/10| = 11/10 from abs_of_nonneg (by norm_num),
        show |(1:ℚ)| = 1 from abs_of_nonneg (by norm_num)]
      rw [max_eq_left (by norm_num), max_eq_left (by norm_num)]
      norm_num
    simp only [ddmtdInit, checkForErrors, List.sum_cons, List.sum_nil, add_zero, zero_add,
      ← add_assoc, hsum]
    rw [if_pos (by simp [hfar])]
    rfl
  · have hsum : (9/10 : ℚ) + 5/100 + 5/100 = 1 := by norm_num
    have hnear : mathIsclose (1 : ℚ) 1 = true := by
      simp only [mathIsclose, decide_eq_true_eq]
      norm_num
    simp only [ddmtdInit, checkForErrors, List.sum_cons, List.sum_nil, add_zero, zero_add,
      ← add_assoc, hsum]
    have hneg : ¬ (([(9:ℚ)/10, 5/100, 0, 5/100].any fun probability =>
        decide (probability < 0)) = true) := by
      simp only [List.any_cons, List.any_nil, Bool.or_eq_true, decide_eq_true_eq]
      intro hcon
      rcases hcon with h | h | h | h | h
      · exact absurd h (by norm_num)
      · exact absurd h (by norm_num)
      · exact absurd h (by norm_num)
      · exact absurd h (by norm_num)
      · exact absurd h (by simp)
    rw [if_neg (by simp [hnear]), if_neg hneg]

/-! Configuration validation (configs/base_configs.py and configs/train_configs.py). -/

/-- The configuration fields consulted by training validation, with the source defaults. -/
structure TrainConfigsData where
  map_size : Vec2D := {}
  obstacles : List Obstacle := []
  processes_number : ℤ := 1
  discount_factor : ℚ := 1/2
  max_iter : ℤ := 100
  value_function_tolerance : ℚ := 0
  changed_actions_tolerance : ℤ := 0
  changed_actions_percentage_tolerance : ℚ := 0

/-- TrainConfigs.__check_between_zero_and_one: true means the ValueError is raised. -/
def checkBetweenZeroAndOne (value : ℚ) : Bool :=
  decide (value < 0 ∨ value > 1)

/-- TrainConfigs.__check_positivity on an int argument: true means the ValueError is raised. -/
def checkPositivityInt (value : ℤ) : Bool :=
  decide (value ≤ 0)

/-- TrainConfigs.__check_non_negativity on a float argument: true means raised. -/
def checkNonNegativityQ (value : ℚ) : Bool :=
  decide (value < 0)

/-- TrainConfigs.__check_non_negativity on an int argument: true means raised. -/
def checkNonNegativityInt (value : ℤ) : Bool :=
  decide (value < 0)

/-- TrainConfigs._check_helper: the checks in source order; true means some ValueError
is raised. -/
def trainCheckHelper (c : TrainConfigsData) : Bool :=
  checkPositivityInt c.max_iter || checkPositivityInt c.processes_number ||
    checkBetweenZeroAndOne c.discount_factor ||
    checkNonNegativityQ c.value_function_tolerance ||
    checkNonNegativityInt c.changed_actions_tolerance ||
    checkNonNegativityQ c.changed_actions_percentage_tolerance

/-- BaseConfigs.__check_map_size: true means the ValueError is raised. -/
def checkMapSize (map_size : Vec2D) : Bool :=
  decide (map_size.x * map_size.y < 3 ∨ map_size.x < 0)

/-- BaseConfigs.__check_obstacles: true means some obstacle is out of bounds. -/
def checkObstacles (map_size : Vec2D) (obstacles : List Obstacle) : Bool :=
  obstacles.any fun obstacle => ! obstacle.is_inside_bounds map_size

/-- BaseConfigs.__check specialized by TrainConfigs: map size check, obstacle check,
then the train-specific checks; true means validation raises. -/
def trainConfigsCheck (c : TrainConfigsData) : Bool :=
  checkMapSize c.map_size || checkObstacles c.map_size c.obstacles || trainCheckHelper c

/-- Counterexample to claim C6 as stated: a configuration with discount factor γ = 0
(which is outside (0,1]) passes the whole validation, because the source check only
rejects γ < 0 or γ > 1. -/
theorem discount_zero_passes_validation :
    (0 : ℚ) ≤ 0 ∧
      trainConfigsCheck { map_size := ⟨2, 2⟩, discount_factor := 0 } = false :=
  ⟨le_refl 0, by decide⟩

/-- Claim C6 (amended): for a configuration whose other checked fields are valid,
validation raises an error exactly when the discount factor is negative or exceeds 1;
γ = 0 is accepted (the code checks 0 ≤ γ ≤ 1, not γ ∈ (0,1]). -/
theorem discount_validation (c : TrainConfigsData)
    (hmap : checkMapSize c.map_size = false)
    (hobs : checkObstacles c.map_size c.obstacles = false)
    (hiter : 0 < c.max_iter) (hproc : 0 < c.processes_number)
    (hvt : 0 ≤ c.value_function_tolerance) (hat : 0 ≤ c.changed_actions_tolerance)
    (hpt : 0 ≤ c.changed_actions_percentage_tolerance) :
    trainConfigsCheck c = true ↔ (c.discount_factor < 0 ∨ 1 < c.discount_factor) := by
  simp only [trainConfigsCheck, trainCheckHelper, hmap, hobs, checkPositivityInt,
    checkBetweenZeroAndOne, checkNonNegativityQ, checkNonNegativityInt, Bool.false_or,
    Bool.or_eq_true, decide_eq_true_eq]
  constructor
  · rintro (((((h | h) | h) | h) | h) | h)
    · exact absurd h (by omega)
    · exact absurd h (by omega)
    · exact h
    · exact absurd h (by linarith)
    · exact absurd h (by omega)
    · exact absurd h (by linarith)
  · intro h
    tauto

/-- Witness for claim C6 (amended) at a concrete configuration with γ = 2. -/
theorem discount_validation_witness :
    checkMapSize (⟨2, 2⟩ : Vec2D) = false ∧
      trainConfigsCheck { map_size := ⟨2, 2⟩, discount_factor := 2 } = true :=
  ⟨rfl, (discount_validation { map_size := ⟨2, 2⟩, discount_factor := 2 } rfl rfl
    (by decide) (by decide) (by norm_num) (by decide) (by norm_num)).mpr (by norm_num)⟩

/-! Reward functors (functors/reward.py). -/

/-- manhattan_distance. -/
def manhattan_distance (point_a point_b : Vec2D) : ℤ :=
  |point_a.x - point_b.x| + |point_a.y - point_b.y|

/-- DenseRewardFunction.__call__. -/
def denseReward (state next_state : State) : ℚ :=
  if state.agent_pos = state.target_pos then 1
  else if state.agent_pos = state.opponent_pos then -1
  else if next_state.agent_pos = next_state.target_pos then 25/100
  else if next_state.agent_pos = next_state.opponent_pos then -(25/100)
  else if manhattan_distance next_state.agent_pos next_state.opponent_pos = 1 then -(1/10)
  else -(1/100)

/-- SparseRewardFunction.__call__. -/
def sparseReward (state next_state : State) : ℚ :=
  if state.agent_pos = state.target_pos then 1
  else if state.agent_pos = state.opponent_pos then -1
  else 0

/-! The value and policy sweep computations (entities/train_manager.py and
entities/parallel_train.py). -/

/-- The immutable data both sweep computations read: the valid state space, the current
value function (get_current_value, indexed by valid index), the reward functor, the
transition-density functor and the discount factor. -/
structure TrainEnv where
  vss : VSS
  get_current_value : ℤ → ℚ
  reward : State → State → ℚ
  markov_transition_density : Action → Action → ℚ
  discount_factor : ℚ

/-- The trainer's scratch buffers (probability, next-state and next-state-value lists,
indexed by Action). As in the source, they persist between calls, so entries skipped
by the zero-probability shortcut retain stale values. -/
structure Scratch where
  probabilities : Action → ℚ
  next_states : Action → State
  next_states_values : Action → ℚ

/-- Write one entry of an Action-indexed scratch list. -/
def updA {α : Type} (f : Action → α) (a : Action) (v : α) : Action → α :=
  fun b => if b = a then v else f b

/-- One pass of the action loop in TrainManager.__calculate_new_value_function_value
(sequential mode): the density is called as density(chosen_action, action). -/
def calcValueStepSeq (env : TrainEnv) (state : State) (state_index : ℤ)
    (chosen_action : Action) (knows_chosen_action_is_valid : Bool) (action : Action)
    (sc : Scratch) (cs : Caches) : Scratch × Caches :=
  let p := env.markov_transition_density chosen_action action
  let sc := { sc with probabilities := updA sc.probabilities action p }
  if p = 0 then (sc, cs)
  else
    let next_state := { state with
      agent_pos := (moveCheckingBounds state.agent_pos action env.vss.map_size).1 }
    let sc := { sc with next_states := updA sc.next_states action next_state }
    if knows_chosen_action_is_valid && decide (action = chosen_action) then
      let r := getValidIndex env.vss cs next_state
      ({ sc with
          next_states_values := updA sc.next_states_values action (env.get_current_value r.1) },
        r.2)
    else
      let o := isStateOutsideObstacles env.vss cs next_state
      if o.1 then
        let r := getValidIndex env.vss o.2 next_state
        ({ sc with
            next_states_values := updA sc.next_states_values action (env.get_current_value r.1) },
          r.2)
      else
        ({ sc with
            next_states_values := updA sc.next_states_values action (env.get_current_value state_index) },
          o.2)

/-- One pass of the action loop in parallel_train.calculate_new_value_function_value:
identical to the sequential pass except that the density is called with its arguments
swapped, density(action, chosen_action). -/
def calcValueStepPar (env : TrainEnv) (state : State) (state_index : ℤ)
    (chosen_action : Action) (knows_chosen_action_is_valid : Bool) (action : Action)
    (sc : Scratch) (cs : Caches) : Scratch × Caches :=
  let p := env.markov_transition_density action chosen_action
  let sc := { sc with probabilities := updA sc.probabilities action p }
  if p = 0 then (sc, cs)
  else
    let next_state := { state with
      agent_pos := (moveCheckingBounds state.agent_pos action env.vss.map_size).1 }
    let sc := { sc with next_states := updA sc.next_states action next_state }
    if knows_chosen_action_is_valid && decide (action = chosen_action) then
      let r := getValidIndex env.vss cs next_state
      ({ sc with
          next_states_values := updA sc.next_states_values action (env.get_current_value r.1) },
        r.2)
    else
      let o := isStateOutsideObstacles env.vss cs next_state
      if o.1 then
        let r := getValidIndex env.vss o.2 next_state
        ({ sc with
            next_states_values := updA sc.next_states_values action (env.get_current_value r.1) },
          r.2)
      else
        ({ sc with
            next_states_values := updA sc.next_states_values action (env.get_current_value state_index) },
          o.2)

/-- The reward-plus-discounted-expectation total; Python's
sum(v * p for v, p in zip(next_states_values, probabilities)). -/
def qTotal (env : TrainEnv) (state : State) (chosen_action : Action) (sc : Scratch) : ℚ :=
  env.reward state (sc.next_states chosen_action) +
    env.discount_factor *
      (sc.next_states_values Action.UP * sc.probabilities Action.UP +
        sc.next_states_values Action.RIGHT * sc.probabilities Action.RIGHT +
        sc.next_states_values Action.DOWN * sc.probabilities Action.DOWN +
        sc.next_states_values Action.LEFT * sc.probabilities Action.LEFT)

/-- TrainManager.__calculate_new_value_function_value (sequential mode). -/
def calculateNewValueSeq (env : TrainEnv) (state : State) (state_index : ℤ)
    (chosen_action : Action) (knows_chosen_action_is_valid : Bool)
    (sc : Scratch) (cs : Caches) : ℚ × Scratch × Caches :=
  let (sc, cs) := calcValueStepSeq env state state_index chosen_action
    knows_chosen_action_is_valid Action.UP sc cs
  let (sc, cs) := calcValueStepSeq env state state_index chosen_action
    knows_chosen_action_is_valid Action.RIGHT sc cs
  let (sc, cs) := calcValueStepSeq env state state_index chosen_action
    knows_chosen_action_is_valid Action.DOWN sc cs
  let (sc, cs) := calcValueStepSeq env state state_index chosen_action
    knows_chosen_action_is_valid Action.LEFT sc cs
  (qTotal env state chosen_action sc, sc, cs)

/-- parallel_train.calculate_new_value_function_value (parallel worker). -/
def calculateNewValuePar (env : TrainEnv) (state : State) (state_index : ℤ)
    (chosen_action : Action) (knows_chosen_action_is_valid : Bool)
    (sc : Scratch) (cs : Caches) : ℚ × Scratch × Caches :=
  let (sc, cs) := calcValueStepPar env state state_index chosen_action
    knows_chosen_action_is_valid Action.UP sc cs
  let (sc, cs) := calcValueStepPar env state state_index chosen_action
    knows_chosen_action_is_valid Action.RIGHT sc cs
  let (sc, cs) := calcValueStepPar env state state_index chosen_action
    knows_chosen_action_is_valid Action.DOWN sc cs
  let (sc, cs) := calcValueStepPar env state state_index chosen_action
    knows_chosen_action_is_valid Action.LEFT sc cs
  (qTotal env state chosen_action sc, sc, cs)

/-- TrainManager.__mask_actions: bottom (-inf) when the move leaves the grid or the
moved state misses the valid state space; otherwise the Q-value, computed on the
restored state with knows_chosen_action_is_valid = true. -/
def maskActionsSeq (env : TrainEnv) (state : State) (state_index : ℤ) (action : Action)
    (sc : Scratch) (cs : Caches) : WithBot ℚ × Scratch × Caches :=
  let mv := moveCheckingBounds state.agent_pos action env.vss.map_size
  if ! mv.2 then (⊥, sc, cs)
  else
    let o := isStateOutsideObstacles env.vss cs { state with agent_pos := mv.1 }
    if ! o.1 then (⊥, sc, o.2)
    else
      let r := calculateNewValueSeq env state state_index action true sc o.2
      ((r.1 : WithBot ℚ), r.2.1, r.2.2)

/-- parallel_train.mask_actions (same structure, parallel Q computation). -/
def maskActionsPar (env : TrainEnv) (state : State) (state_index : ℤ) (action : Action)
    (sc : Scratch) (cs : Caches) : WithBot ℚ × Scratch × Caches :=
  let mv := moveCheckingBounds state.agent_pos action env.vss.map_size
  if ! mv.2 then (⊥, sc, cs)
  else
    let o := isStateOutsideObstacles env.vss cs { state with agent_pos := mv.1 }
    if ! o.1 then (⊥, sc, o.2)
    else
      let r := calculateNewValuePar env state state_index action true sc o.2
      ((r.1 : WithBot ℚ), r.2.1, r.2.2)

/-- Python's builtin max over already-evaluated (element, key) pairs: the running best
is replaced only when a later key is strictly greater, so the first maximal element
wins. -/
def pyMax (first : Action × WithBot ℚ) (rest : List (Action × WithBot ℚ)) : Action :=
  (rest.foldl (fun best x => if best.2 < x.2 then x else best) first).1

/-- The four masked keys of a state, evaluated once per action in iteration order
UP, RIGHT, DOWN, LEFT with the caches threaded through (sequential mode), as
max(actions, key=...) evaluates them. -/
def maskKeyOfSeq (env : TrainEnv) (state : State) (state_index : ℤ)
    (sc : Scratch) (cs : Caches) : Action → WithBot ℚ :=
  let (kU, sc, cs) := maskActionsSeq env state state_index Action.UP sc cs
  let (kR, sc, cs) := maskActionsSeq env state state_index Action.RIGHT sc cs
  let (kD, sc, cs) := maskActionsSeq env state state_index Action.DOWN sc cs
  let (kL, _, _) := maskActionsSeq env state state_index Action.LEFT sc cs
  fun a => match a with
  | Action.UP => kU
  | Action.RIGHT => kR
  | Action.DOWN => kD
  | Action.LEFT => kL

/-- Parallel counterpart of maskKeyOfSeq. -/
def maskKeyOfPar (env : TrainEnv) (state : State) (state_index : ℤ)
    (sc : Scratch) (cs : Caches) : Action → WithBot ℚ :=
  let (kU, sc, cs) := maskActionsPar env state state_index Action.UP sc cs
  let (kR, sc, cs) := maskActionsPar env state state_index Action.RIGHT sc cs
  let (kD, sc, cs) := maskActionsPar env state state_index Action.DOWN sc cs
  let (kL, _, _) := maskActionsPar env state state_index Action.LEFT sc cs
  fun a => match a with
  | Action.UP => kU
  | Action.RIGHT => kR
  | Action.DOWN => kD
  | Action.LEFT => kL

/-- The per-state selection of TrainManager.__update_policy:
new_action = max(self.__actions, key=lambda action: self.__mask_actions(...)). -/
def newActionSeq (env : TrainEnv) (state : State) (state_index : ℤ)
    (sc : Scratch) (cs : Caches) : Action × Scratch × Caches :=
  let (kU, sc, cs) := maskActionsSeq env state state_index Action.UP sc cs
  let (kR, sc, cs) := maskActionsSeq env state state_index Action.RIGHT sc cs
  let (kD, sc, cs) := maskActionsSeq env state state_index Action.DOWN sc cs
  let (kL, sc, cs) := maskActionsSeq env state state_index Action.LEFT sc cs
  (pyMax (Action.UP, kU) [(Action.RIGHT, kR), (Action.DOWN, kD), (Action.LEFT, kL)], sc, cs)

/-- The per-state selection of parallel_train.improve_policy. -/
def newActionPar (env : TrainEnv) (state : State) (state_index : ℤ)
    (sc : Scratch) (cs : Caches) : Action × Scratch × Caches :=
  let (kU, sc, cs) := maskActionsPar env state state_index Action.UP sc cs
  let (kR, sc, cs) := maskActionsPar env state state_index Action.RIGHT sc cs
  let (kD, sc, cs) := maskActionsPar env state state_index Action.DOWN sc cs
  let (kL, sc, cs) := maskActionsPar env state state_index Action.LEFT sc cs
  (pyMax (Action.UP, kU) [(Action.RIGHT, kR), (Action.DOWN, kD), (Action.LEFT, kL)], sc, cs)

/-- Look up one of four precomputed action keys. -/
def key4 (kU kR kD kL : WithBot ℚ) : Action → WithBot ℚ
  | .UP => kU
  | .RIGHT => kR
  | .DOWN => kD
  | .LEFT => kL

/-- Python's max over the four (action, key) pairs selects an action whose key is
maximal, and every action earlier in the iteration order UP, RIGHT, DOWN, LEFT has a
strictly smaller key — so the selected action is the earliest maximiser. -/
theorem pyMax4_spec (kU kR kD kL : WithBot ℚ) :
    (∀ a : Action, key4 kU kR kD kL a ≤ key4 kU kR kD kL
      (pyMax (Action.UP, kU) [(Action.RIGHT, kR), (Action.DOWN, kD), (Action.LEFT, kL)])) ∧
    (∀ a : Action, a.toInt <
      (pyMax (Action.UP, kU) [(Action.RIGHT, kR), (Action.DOWN, kD), (Action.LEFT, kL)]).toInt →
      key4 kU kR kD kL a < key4 kU kR kD kL
        (pyMax (Action.UP, kU) [(Action.RIGHT, kR), (Action.DOWN, kD), (Action.LEFT, kL)])) := by
  by_cases c1 : kU < kR
  · by_cases c2 : kR < kD
    · by_cases c3 : kD < kL
      all_goals simp only [pyMax, List.foldl_cons, List.foldl_nil, c1, c2, c3,
        if_true, if_false, key4]
      refine ⟨fun a => ?_, fun a ha => ?_⟩ <;> rcases a <;>
        first
        | exact absurd ha (by decide)
        | exact le_refl _
        | exact le_of_lt c1
        | exact le_of_lt c2
        | exact le_of_lt c3
        | exact le_of_not_lt c1
        | exact le_of_not_lt c2
        | exact le_of_not_lt c3
        | exact le_of_lt (lt_trans c1 c2)
        | exact le_of_lt (lt_trans c2 c3)
        | exact le_of_lt (lt_trans c1 c3)
        | exact le_of_lt (lt_trans (lt_trans c1 c2) c3)
        | exact le_trans (le_of_not_lt c2) (le_of_lt c3)
        | exact le_trans (le_of_not_lt c1) (le_of_lt c2)
        | exact le_trans (le_of_not_lt c1) (le_of_lt c3)
        | exact le_trans (le_of_not_lt c1) (le_of_lt (lt_trans c2 c3))
        | exact c1
        | exact c2
        | exact c3
        | exact lt_trans c1 c2
        | exact lt_trans c2 c3
        | exact lt_trans c1 c3
        | exact lt_trans (lt_trans c1 c2) c3
        | exact lt_of_le_of_lt (le_of_not_lt c1) c2
        | exact lt_of_le_of_lt (le_of_not_lt c1) c3
        | exact lt_of_le_of_lt (le_of_not_lt c2) c3
        | exact lt_of_le_of_lt (le_of_not_lt c1) (lt_trans c2 c3)
      refine ⟨fun a => ?_, fun a ha => ?_⟩ <;> rcases a <;>
        first
        | exact absurd ha (by decide)
        | exact le_refl _
        | exact le_of_lt c1
        | exact le_of_lt c2
        | exact le_of_lt c3
        | exact le_of_not_lt c1
        | exact le_of_not_lt c2
        | exact le_of_not_lt c3
        | exact le_of_lt (lt_trans c1 c2)
        | exact le_of_lt (lt_trans c2 c3)
        | exact le_of_lt (lt_trans c1 c3)
        | exact le_of_lt (lt_trans (lt_trans c1 c2) c3)
        | exact le_trans (le_of_not_lt c2) (le_of_lt c3)
        | exact le_trans (le_of_not_lt c1) (le_of_lt c2)
        | exact le_trans (le_of_not_lt c1) (le_of_lt c3)
        | exact le_trans (le_of_not_lt c1) (le_of_lt (lt_trans c2 c3))
        | exact c1
        | exact c2
        | exact c3
        | exact lt_trans c1 c2
        | exact lt_trans c2 c3
        | exact lt_trans c1 c3
        | exact lt_trans (lt_trans c1 c2) c3
        | exact lt_of_le_of_lt (le_of_not_lt c1) c2
        | exact lt_of_le_of_lt (le_of_not_lt c1) c3
        | exact lt_of_le_of_lt (le_of_not_lt c2) c3
        | exact lt_of_le_of_lt (le_of_not_lt c1) (lt_trans c2 c3)
    · by_cases c3 : kR < kL
      all_goals simp only [pyMax, List.foldl_cons, List.foldl_nil, c1, c2, c3,
        if_true, if_false, key4]
      refine ⟨fun a => ?_, fun a ha => ?_⟩ <;> rcases a <;>
        first
        | exact absurd ha (by decide)
        | exact le_refl _
        | exact le_of_lt c1
        | exact le_of_lt c2
        | exact le_of_lt c3
        | exact le_of_not_lt c1
        | exact le_of_not_lt c2
        | exact le_of_not_lt c3
        | exact le_of_lt (lt_trans c1 c2)
        | exact le_of_lt (lt_trans c2 c3)
        | exact le_of_lt (lt_trans c1 c3)
        | exact le_of_lt (lt_trans (lt_trans c1 c2) c3)
        | exact le_trans (le_of_not_lt c2) (le_of_lt c3)
        | exact le_trans (le_of_not_lt c1) (le_of_lt c2)
        | exact le_trans (le_of_not_lt c1) (le_of_lt c3)
        | exact le_trans (le_of_not_lt c1) (le_of_lt (lt_trans c2 c3))
        | exact c1
        | exact c2
        | exact c3
        | exact lt_trans c1 c2
        | exact lt_trans c2 c3
        | exact lt_trans c1 c3
        | exact lt_trans (lt_trans c1 c2) c3
        | exact lt_of_le_of_lt (le_of_not_lt c1) c2
        | exact lt_of_le_of_lt (le_of_not_lt c1) c3
        | exact lt_of_le_of_lt (le_of_not_lt c2) c3
        | exact lt_of_le_of_lt (le_of_not_lt c1) (lt_trans c2 c3)
      refine ⟨fun a => ?_, fun a ha => ?_⟩ <;> rcases a <;>
        first
        | exact absurd ha (by decide)
        | exact le_refl _
        | exact le_of_lt c1
        | exact le_of_lt c2
        | exact le_of_lt c3
        | exact le_of_not_lt c1
        | exact le_of_not_lt c2
        | exact le_of_not_lt c3
        | exact le_of_lt (lt_trans c1 c2)
        | exact le_of_lt (lt_trans c2 c3)
        | exact le_of_lt (lt_trans c1 c3)
        | exact le_of_lt (lt_trans (lt_trans c1 c2) c3)
        | exact le_trans (le_of_not_lt c2) (le_of_lt c3)
        | exact le_trans (le_of_not_lt c1) (le_of_lt c2)
        | exact le_trans (le_of_not_lt c1) (le_of_lt c3)
        | exact le_trans (le_of_not_lt c1) (le_of_lt (lt_trans c2 c3))
        | exact c1
        | exact c2
        | exact c3
        | exact lt_trans c1 c2
        | exact lt_trans c2 c3
        | exact lt_trans c1 c3
        | exact lt_trans (lt_trans c1 c2) c3
        | exact lt_of_le_of_lt (le_of_not_lt c1) c2
        | exact lt_of_le_of_lt (le_of_not_lt c1) c3
        | exact lt_of_le_of_lt (le_of_not_lt c2) c3
        | exact lt_of_le_of_lt (le_of_not_lt c1) (lt_trans c2 c3)
  · by_cases c2 : kU < kD
    · by_cases c3 : kD < kL
      all_goals simp only [pyMax, List.foldl_cons, List.foldl_nil, c1, c2, c3,
        if_true, if_false, key4]
      refine ⟨fun a => ?_, fun a ha => ?_⟩ <;> rcases a <;>
        first
        | exact absurd ha (by decide)
        | exact le_refl _
        | exact le_of_lt c1
        | exact le_of_lt c2
        | exact le_of_lt c3
        | exact le_of_not_lt c1
        | exact le_of_not_lt c2
        | exact le_of_not_lt c3
        | exact le_of_lt (lt_trans c1 c2)
        | exact le_of_lt (lt_trans c2 c3)
        | exact le_of_lt (lt_trans c1 c3)
        | exact le_of_lt (lt_trans (lt_trans c1 c2) c3)
        | exact le_trans (le_of_not_lt c2) (le_of_lt c3)
        | exact le_trans (le_of_not_lt c1) (le_of_lt c2)
        | exact le_trans (le_of_not_lt c1) (le_of_lt c3)
        | exact le_trans (le_of_not_lt c1) (le_of_lt (lt_trans c2 c3))
        | exact c1
        | exact c2
        | exact c3
        | exact lt_trans c1 c2
        | exact lt_trans c2 c3
        | exact lt_trans c1 c3
        | exact lt_trans (lt_trans c1 c2) c3
        | exact lt_of_le_of_lt (le_of_not_lt c1) c2
        | exact lt_of_le_of_lt (le_of_not_lt c1) c3
        | exact lt_of_le_of_lt (le_of_not_lt c2) c3
        | exact lt_of_le_of_lt (le_of_not_lt c1) (lt_trans c2 c3)
      refine ⟨fun a => ?_, fun a ha => ?_⟩ <;> rcases a <;>
        first
        | exact absurd ha (by decide)
        | exact le_refl _
        | exact le_of_lt c1
        | exact le_of_lt c2
        | exact le_of_lt c3
        | exact le_of_not_lt c1
        | exact le_of_not_lt c2
        | exact le_of_not_lt c3
        | exact le_of_lt (lt_trans c1 c2)
        | exact le_of_lt (lt_trans c2 c3)
        | exact le_of_lt (lt_trans c1 c3)
        | exact le_of_lt (lt_trans (lt_trans c1 c2) c3)
        | exact le_trans (le_of_not_lt c2) (le_of_lt c3)
        | exact le_trans (le_of_not_lt c1) (le_of_lt c2)
        | exact le_trans (le_of_not_lt c1) (le_of_lt c3)
        | exact le_trans (le_of_not_lt c1) (le_of_lt (lt_trans c2 c3))
        | exact c1
        | exact c2
        | exact c3
        | exact lt_trans c1 c2
        | exact lt_trans c2 c3
        | exact lt_trans c1 c3
        | exact lt_trans (lt_trans c1 c2) c3
        | exact lt_of_le_of_lt (le_of_not_lt c1) c2
        | exact lt_of_le_of_lt (le_of_not_lt c1) c3
        | exact lt_of_le_of_lt (le_of_not_lt c2) c3
        | exact lt_of_le_of_lt (le_of_not_lt c1) (lt_trans c2 c3)
    · by_cases c3 : kU < kL
      all_goals simp only [pyMax, List.foldl_cons, List.foldl_nil, c1, c2, c3,
        if_true, if_false, key4]
      refine ⟨fun a => ?_, fun a ha => ?_⟩ <;> rcases a <;>
        first
        | exact absurd ha (by decide)
        | exact le_refl _
        | exact le_of_lt c1
        | exact le_of_lt c2
        | exact le_of_lt c3
        | exact le_of_not_lt c1
        | exact le_of_not_lt c2
        | exact le_of_not_lt c3
        | exact le_of_lt (lt_trans c1 c2)
        | exact le_of_lt (lt_trans c2 c3)
        | exact le_of_lt (lt_trans c1 c3)
        | exact le_of_lt (lt_trans (lt_trans c1 c2) c3)
        | exact le_trans (le_of_not_lt c2) (le_of_lt c3)
        | exact le_trans (le_of_not_lt c1) (le_of_lt c2)
        | exact le_trans (le_of_not_lt c1) (le_of_lt c3)
        | exact le_trans (le_of_not_lt c1) (le_of_lt (lt_trans c2 c3))
        | exact c1
        | exact c2
        | exact c3
        | exact lt_trans c1 c2
        | exact lt_trans c2 c3
        | exact lt_trans c1 c3
        | exact lt_trans (lt_trans c1 c2) c3
        | exact lt_of_le_of_lt (le_of_not_lt c1) c2
        | exact lt_of_le_of_lt (le_of_not_lt c1) c3
        | exact lt_of_le_of_lt (le_of_not_lt c2) c3
        | exact lt_of_le_of_lt (le_of_not_lt c1) (lt_trans c2 c3)
      refine ⟨fun a => ?_, fun a ha => ?_⟩ <;> rcases a <;>
        first
        | exact absurd ha (by decide)
        | exact le_refl _
        | exact le_of_lt c1
        | exact le_of_lt c2
        | exact le_of_lt c3
        | exact le_of_not_lt c1
        | exact le_of_not_lt c2
        | exact le_of_not_lt c3
        | exact le_of_lt (lt_trans c1 c2)
        | exact le_of_lt (lt_trans c2 c3)
        | exact le_of_lt (lt_trans c1 c3)
        | exact le_of_lt (lt_trans (lt_trans c1 c2) c3)
        | exact le_trans (le_of_not_lt c2) (le_of_lt c3)
        | exact le_trans (le_of_not_lt c1) (le_of_lt c2)
        | exact le_trans (le_of_not_lt c1) (le_of_lt c3)
        | exact le_trans (le_of_not_lt c1) (le_of_lt (lt_trans c2 c3))
        | exact c1
        | exact c2
        | exact c3
        | exact lt_trans c1 c2
        | exact lt_trans c2 c3
        | exact lt_trans c1 c3
        | exact lt_trans (lt_trans c1 c2) c3
        | exact lt_of_le_of_lt (le_of_not_lt c1) c2
        | exact lt_of_le_of_lt (le_of_not_lt c1) c3
        | exact lt_of_le_of_lt (le_of_not_lt c2) c3
        | exact lt_of_le_of_lt (le_of_not_lt c1) (lt_trans c2 c3)

/-- Claim C10: in both the sequential and the parallel policy sweep, the selected
action maximises the masked Q-value, and any action that ties with the selected one
comes no earlier in the enumeration order UP, RIGHT, DOWN, LEFT (every strictly
earlier action has a strictly smaller key); the selection is a pure function of the
sweep inputs. -/
theorem policy_argmax_earliest (env : TrainEnv) (state : State) (state_index : ℤ)
    (sc : Scratch) (cs : Caches) :
    ((∀ a : Action, maskKeyOfSeq env state state_index sc cs a ≤
        maskKeyOfSeq env state state_index sc cs
          (newActionSeq env state state_index sc cs).1) ∧
      (∀ a : Action, maskKeyOfSeq env state state_index sc cs a <
          maskKeyOfSeq env state state_index sc cs
            (newActionSeq env state state_index sc cs).1 ∨
        (newActionSeq env state state_index sc cs).1.toInt ≤ a.toInt)) ∧
    ((∀ a : Action, maskKeyOfPar env state state_index sc cs a ≤
        maskKeyOfPar env state state_index sc cs
          (newActionPar env state state_index sc cs).1) ∧
      (∀ a : Action, maskKeyOfPar env state state_index sc cs a <
          maskKeyOfPar env state state_index sc cs
            (newActionPar env state state_index sc cs).1 ∨
        (newActionPar env state state_index sc cs).1.toInt ≤ a.toInt)) := by
  constructor
  · have hs : ∀ a, key4 (maskKeyOfSeq env state state_index sc cs Action.UP)
        (maskKeyOfSeq env state state_index sc cs Action.RIGHT)
        (maskKeyOfSeq env state state_index sc cs Action.DOWN)
        (maskKeyOfSeq env state state_index sc cs Action.LEFT) a =
        maskKeyOfSeq env state state_index sc cs a := by
      intro a
      cases a <;> rfl
    have hrs : (newActionSeq env state state_index sc cs).1 =
        pyMax (Action.UP, maskKeyOfSeq env state state_index sc cs Action.UP)
          [(Action.RIGHT, maskKeyOfSeq env state state_index sc cs Action.RIGHT),
            (Action.DOWN, maskKeyOfSeq env state state_index sc cs Action.DOWN),
            (Action.LEFT, maskKeyOfSeq env state state_index sc cs Action.LEFT)] := rfl
    have hps := pyMax4_spec (maskKeyOfSeq env state state_index sc cs Action.UP)
      (maskKeyOfSeq env state state_index sc cs Action.RIGHT)
      (maskKeyOfSeq env state state_index sc cs Action.DOWN)
      (maskKeyOfSeq env state state_index sc cs Action.LEFT)
    refine ⟨fun a => ?_, fun a => ?_⟩
    · have h1 := hps.1 a
      rw [hs a, hs _] at h1
      rwa [hrs]
    · rcases lt_or_le a.toInt (newActionSeq env state state_index sc cs).1.toInt with h | h
      · left
        have h2 := hps.2 a (by rwa [hrs] at h)
        rw [hs a, hs _] at h2
        rwa [hrs]
      · exact Or.inr h
  · have hs : ∀ a, key4 (maskKeyOfPar env state state_index sc cs Action.UP)
        (maskKeyOfPar env state state_index sc cs Action.RIGHT)
        (maskKeyOfPar env state state_index sc cs Action.DOWN)
        (maskKeyOfPar env state state_index sc cs Action.LEFT) a =
        maskKeyOfPar env state state_index sc cs a := by
      intro a
      cases a <;> rfl
    have hrs : (newActionPar env state state_index sc cs).1 =
        pyMax (Action.UP, maskKeyOfPar env state state_index sc cs Action.UP)
          [(Action.RIGHT, maskKeyOfPar env state state_index sc cs Action.RIGHT),
            (Action.DOWN, maskKeyOfPar env state state_index sc cs Action.DOWN),
            (Action.LEFT, maskKeyOfPar env state state_index sc cs Action.LEFT)] := rfl
    have hps := pyMax4_spec (maskKeyOfPar env state state_index sc cs Action.UP)
      (maskKeyOfPar env state state_index sc cs Action.RIGHT)
      (maskKeyOfPar env state state_index sc cs Action.DOWN)
      (maskKeyOfPar env state state_index sc cs Action.LEFT)
    refine ⟨fun a => ?_, fun a => ?_⟩
    · have h1 := hps.1 a
      rw [hs a, hs _] at h1
      rwa [hrs]
    · rcases lt_or_le a.toInt (newActionPar env state state_index sc cs).1.toInt with h | h
      · left
        have h2 := hps.2 a (by rwa [hrs] at h)
        rw [hs a, hs _] at h2
        rwa [hrs]
      · exact Or.inr h

/-- If move_checking_bounds accepts, the result is the moved position and it stays in
range; if it rejects, the position is unchanged. -/
theorem moveCheckingBounds_spec (pos : Vec2D) (action : Action) (N M : ℤ)
    (h : posInRange pos N M) :
    ((moveCheckingBounds pos action (mapSizeInit N M)).2 = true →
      (moveCheckingBounds pos action (mapSizeInit N M)).1 = pos.move action ∧
        posInRange (moveCheckingBounds pos action (mapSizeInit N M)).1 N M) ∧
    ((moveCheckingBounds pos action (mapSizeInit N M)).2 = false →
      (moveCheckingBounds pos action (mapSizeInit N M)).1 = pos) := by
  obtain ⟨px, py⟩ := pos
  simp only [posInRange] at h
  obtain ⟨h1, h2, h3, h4⟩ := h
  cases action <;>
    simp only [moveCheckingBounds, Vec2D.move, Vec2D.undo, mapSizeInit] <;>
    split_ifs with hc <;>
    simp only [decide_eq_true_eq] at hc <;>
    constructor <;> intro hb
  all_goals first
    | (exfalso; exact Bool.noConfusion hb)
    | (exfalso; exact hb)
    | exact ⟨rfl, by simp [posInRange]; omega⟩
    | exact ⟨rfl, by simp [posInRange]⟩
    | (simp [Vec2D.mk.injEq]; try omega; done)
    | (simp [Vec2D.mk.injEq])

/-- calcValueStepSeq keeps the caches coherent. -/
theorem calcValueStepSeq_cachesOK (env : TrainEnv) (state : State) (state_index : ℤ)
    (chosen_action : Action) (knows : Bool) (action : Action) (sc : Scratch) (cs : Caches)
    (hsorted : List.Pairwise (· < ·) env.vss.arr) (hcs : CachesOK env.vss.arr cs) :
    CachesOK env.vss.arr
      (calcValueStepSeq env state state_index chosen_action knows action sc cs).2 := by
  unfold calcValueStepSeq
  dsimp only
  split_ifs with h1 h2 h3
  · exact hcs
  · exact (getValidIndex_ok env.vss cs _ hsorted hcs).1
  · exact (getValidIndex_ok env.vss _ _ hsorted
      (isStateOutsideObstacles_ok env.vss cs _ hsorted hcs).1).1
  · exact (isStateOutsideObstacles_ok env.vss cs _ hsorted hcs).1

/-- calcValueStepPar keeps the caches coherent. -/
theorem calcValueStepPar_cachesOK (env : TrainEnv) (state : State) (state_index : ℤ)
    (chosen_action : Action) (knows : Bool) (action : Action) (sc : Scratch) (cs : Caches)
    (hsorted : List.Pairwise (· < ·) env.vss.arr) (hcs : CachesOK env.vss.arr cs) :
    CachesOK env.vss.arr
      (calcValueStepPar env state state_index chosen_action knows action sc cs).2 := by
  unfold calcValueStepPar
  dsimp only
  split_ifs with h1 h2 h3
  · exact hcs
  · exact (getValidIndex_ok env.vss cs _ hsorted hcs).1
  · exact (getValidIndex_ok env.vss _ _ hsorted
      (isStateOutsideObstacles_ok env.vss cs _ hsorted hcs).1).1
  · exact (isStateOutsideObstacles_ok env.vss cs _ hsorted hcs).1

/-- calculateNewValueSeq keeps the caches coherent. -/
theorem calculateNewValueSeq_cachesOK (env : TrainEnv) (state : State) (state_index : ℤ)
    (chosen_action : Action) (knows : Bool) (sc : Scratch) (cs : Caches)
    (hsorted : List.Pairwise (· < ·) env.vss.arr) (hcs : CachesOK env.vss.arr cs) :
    CachesOK env.vss.arr
      (calculateNewValueSeq env state state_index chosen_action knows sc cs).2.2 := by
  rcases h1 : calcValueStepSeq env state state_index chosen_action knows Action.UP sc cs
    with ⟨sc1, cs1⟩
  have k1 : CachesOK env.vss.arr cs1 := by
    have := calcValueStepSeq_cachesOK env state state_index chosen_action knows Action.UP
      sc cs hsorted hcs
    rwa [h1] at this
  rcases h2 : calcValueStepSeq env state state_index chosen_action knows Action.RIGHT sc1 cs1
    with ⟨sc2, cs2⟩
  have k2 : CachesOK env.vss.arr cs2 := by
    have := calcValueStepSeq_cachesOK env state state_index chosen_action knows Action.RIGHT
      sc1 cs1 hsorted k1
    rwa [h2] at this
  rcases h3 : calcValueStepSeq env state state_index chosen_action knows Action.DOWN sc2 cs2
    with ⟨sc3, cs3⟩
  have k3 : CachesOK env.vss.arr cs3 := by
    have := calcValueStepSeq_cachesOK env state state_index chosen_action knows Action.DOWN
      sc2 cs2 hsorted k2
    rwa [h3] at this
  rcases h4 : calcValueStepSeq env state state_index chosen_action knows Action.LEFT sc3 cs3
    with ⟨sc4, cs4⟩
  have k4 : CachesOK env.vss.arr cs4 := by
    have := calcValueStepSeq_cachesOK env state state_index chosen_action knows Action.LEFT
      sc3 cs3 hsorted k3
    rwa [h4] at this
  simp only [calculateNewValueSeq, h1, h2, h3, h4]
  exact k4

/-- calculateNewValuePar keeps the caches coherent. -/
theorem calculateNewValuePar_cachesOK (env : TrainEnv) (state : State) (state_index : ℤ)
    (chosen_action : Action) (knows : Bool) (sc : Scratch) (cs : Caches)
    (hsorted : List.Pairwise (· < ·) env.vss.arr) (hcs : CachesOK env.vss.arr cs) :
    CachesOK env.vss.arr
      (calculateNewValuePar env state state_index chosen_action knows sc cs).2.2 := by
  rcases h1 : calcValueStepPar env state state_index chosen_action knows Action.UP sc cs
    with ⟨sc1, cs1⟩
  have k1 : CachesOK env.vss.arr cs1 := by
    have := calcValueStepPar_cachesOK env state state_index chosen_action knows Action.UP
      sc cs hsorted hcs
    rwa [h1] at this
  rcases h2 : calcValueStepPar env state state_index chosen_action knows Action.RIGHT sc1 cs1
    with ⟨sc2, cs2⟩
  have k2 : CachesOK env.vss.arr cs2 := by
    have := calcValueStepPar_cachesOK env state state_index chosen_action knows Action.RIGHT
      sc1 cs1 hsorted k1
    rwa [h2] at this
  rcases h3 : calcValueStepPar env state state_index chosen_action knows Action.DOWN sc2 cs2
    with ⟨sc3, cs3⟩
  have k3 : CachesOK env.vss.arr cs3 := by
    have := calcValueStepPar_cachesOK env state state_index chosen_action knows Action.DOWN
      sc2 cs2 hsorted k2
    rwa [h3] at this
  rcases h4 : calcValueStepPar env state state_index chosen_action knows Action.LEFT sc3 cs3
    with ⟨sc4, cs4⟩
  have k4 : CachesOK env.vss.arr cs4 := by
    have := calcValueStepPar_cachesOK env state state_index chosen_action knows Action.LEFT
      sc3 cs3 hsorted k3
    rwa [h4] at this
  simp only [calculateNewValuePar, h1, h2, h3, h4]
  exact k4

/-- maskActionsSeq keeps the caches coherent. -/
theorem maskActionsSeq_cachesOK (env : TrainEnv) (state : State) (state_index : ℤ)
    (action : Action) (sc : Scratch) (cs : Caches)
    (hsorted : List.Pairwise (· < ·) env.vss.arr) (hcs : CachesOK env.vss.arr cs) :
    CachesOK env.vss.arr (maskActionsSeq env state state_index action sc cs).2.2 := by
  unfold maskActionsSeq
  dsimp only
  split_ifs with h1 h2
  · exact hcs
  · exact (isStateOutsideObstacles_ok env.vss cs _ hsorted hcs).1
  · exact calculateNewValueSeq_cachesOK env state state_index action true sc _ hsorted
      (isStateOutsideObstacles_ok env.vss cs _ hsorted hcs).1

/-- maskActionsPar keeps the caches coherent. -/
theorem maskActionsPar_cachesOK (env : TrainEnv) (state : State) (state_index : ℤ)
    (action : Action) (sc : Scratch) (cs : Caches)
    (hsorted : List.Pairwise (· < ·) env.vss.arr) (hcs : CachesOK env.vss.arr cs) :
    CachesOK env.vss.arr (maskActionsPar env state state_index action sc cs).2.2 := by
  unfold maskActionsPar
  dsimp only
  split_ifs with h1 h2
  · exact hcs
  · exact (isStateOutsideObstacles_ok env.vss cs _ hsorted hcs).1
  · exact calculateNewValuePar_cachesOK env state state_index action true sc _ hsorted
      (isStateOutsideObstacles_ok env.vss cs _ hsorted hcs).1

/-- isStateValid unfolded: target and opponent differ and every position avoids every
obstacle. -/
theorem isStateValid_iff (state : State) (obstacles : List Obstacle) :
    isStateValid state obstacles = true ↔
      (state.target_pos ≠ state.opponent_pos ∧ ∀ ob ∈ obstacles,
        ob.is_inside state.agent_pos = false ∧ ob.is_inside state.opponent_pos = false ∧
          ob.is_inside state.target_pos = false) := by
  unfold isStateValid
  split_ifs with h
  · simp only [Bool.false_eq_true, false_iff, not_and]
    intro hne
    exact absurd h hne
  · simp only [Bool.not_eq_true', List.any_eq_false, Bool.or_eq_true, not_or,
      Bool.not_eq_true, Bool.or_eq_false_iff]
    constructor
    · rintro hall
      exact ⟨h, fun ob hob => by
        obtain ⟨⟨ha, ho⟩, ht⟩ := hall ob hob
        exact ⟨ha, ho, ht⟩⟩
    · rintro ⟨_, hall⟩ ob hob
      obtain ⟨ha, ho, ht⟩ := hall ob hob
      exact ⟨⟨ha, ho⟩, ht⟩

/-- An action is safe from a state: the agent move stays inside the grid and the moved
agent position collides with no obstacle. -/
def agentActionSafe (map_size : Vec2D) (obstacles : List Obstacle) (state : State)
    (action : Action) : Prop :=
  (moveCheckingBounds state.agent_pos action (mapSizeInit map_size.x map_size.y)).2 = true ∧
    ∀ ob ∈ obstacles, ob.is_inside (state.agent_pos.move action) = false

instance (map_size : Vec2D) (obstacles : List Obstacle) (state : State) (action : Action) :
    Decidable (agentActionSafe map_size obstacles state action) := by
  unfold agentActionSafe
  infer_instance

/-- maskActionsSeq returns bottom exactly for the unsafe actions (move leaves the grid
or enters an obstacle), for a valid in-range state over the real valid state space. -/
theorem maskActionsSeq_bot_iff (map_size : Vec2D) (obstacles : List Obstacle)
    (env : TrainEnv) (state : State) (state_index : ℤ) (action : Action)
    (sc : Scratch) (cs : Caches)
    (hx : 0 < map_size.x) (hy : 0 < map_size.y)
    (harr : env.vss.arr = vssIndexList map_size obstacles)
    (hms : env.vss.map_size = mapSizeInit map_size.x map_size.y)
    (hrange : stateInRange state map_size.x map_size.y)
    (hvalid : isStateValid state obstacles = true)
    (hcs : CachesOK env.vss.arr cs) :
    (maskActionsSeq env state state_index action sc cs).1 = ⊥ ↔
      ¬ agentActionSafe map_size obstacles state action := by
  obtain ⟨hra, hro, hrt⟩ := hrange
  have hmcb := moveCheckingBounds_spec state.agent_pos action map_size.x map_size.y hra
  have hsorted : List.Pairwise (· < ·) env.vss.arr := by
    rw [harr]
    exact (vssIndexList_spec map_size obstacles hx hy).1
  unfold maskActionsSeq
  rw [hms]
  dsimp only
  cases hmv : (moveCheckingBounds state.agent_pos action (mapSizeInit map_size.x map_size.y)).2
  · simp only [Bool.not_false, if_true]
    refine iff_of_true trivial fun hsafe => ?_
    obtain ⟨hs1, _⟩ := hsafe
    rw [hmv] at hs1
    exact Bool.noConfusion hs1
  · simp only [Bool.not_true, Bool.false_eq_true, if_false]
    have hmove := hmcb.1 hmv
    have hrangemoved : stateInRange
        { state with agent_pos :=
            (moveCheckingBounds state.agent_pos action (mapSizeInit map_size.x map_size.y)).1 }
        map_size.x map_size.y :=
      ⟨hmove.2, hro, hrt⟩
    have hooks := isStateOutsideObstacles_ok env.vss cs
      { state with agent_pos :=
          (moveCheckingBounds state.agent_pos action (mapSizeInit map_size.x map_size.y)).1 }
      hsorted hcs
    have hmem : (State.to_index
        { state with agent_pos :=
            (moveCheckingBounds state.agent_pos action (mapSizeInit map_size.x map_size.y)).1 }
        env.vss.map_size ∈ env.vss.arr) ↔
        isStateValid
          { state with agent_pos :=
              (moveCheckingBounds state.agent_pos action (mapSizeInit map_size.x map_size.y)).1 }
          obstacles = true := by
      rw [harr, hms]
      exact (vssIndexList_spec map_size obstacles hx hy).2.1 _ hrangemoved
    obtain ⟨hto, hobs⟩ := (isStateValid_iff state obstacles).mp hvalid
    have hvm : (isStateValid
        { state with agent_pos :=
            (moveCheckingBounds state.agent_pos action (mapSizeInit map_size.x map_size.y)).1 }
        obstacles = true) ↔
        ∀ ob ∈ obstacles, ob.is_inside (state.agent_pos.move action) = false := by
      rw [isStateValid_iff]
      constructor
      · rintro ⟨_, h⟩ ob hob
        have h2 := (h ob hob).1
        dsimp only at h2
        rwa [hmove.1] at h2
      · intro h
        refine ⟨hto, fun ob hob => ⟨?_, (hobs ob hob).2.1, (hobs ob hob).2.2⟩⟩
        dsimp only
        rw [hmove.1]
        exact h ob hob
    cases ho : (isStateOutsideObstacles env.vss cs
        { state with agent_pos :=
            (moveCheckingBounds state.agent_pos action (mapSizeInit map_size.x map_size.y)).1 }).1
    · simp only [Bool.not_false, if_true]
      refine iff_of_true trivial fun hsafe => ?_
      have hin : (isStateOutsideObstacles env.vss cs
          { state with agent_pos :=
              (moveCheckingBounds state.agent_pos action (mapSizeInit map_size.x map_size.y)).1 }).1
          = true :=
        hooks.2.mpr (hmem.mpr (hvm.mpr hsafe.2))
      rw [ho] at hin
      exact Bool.noConfusion hin
    · simp only [Bool.not_true, Bool.false_eq_true, if_false]
      refine iff_of_false (by simp) fun hns => ?_
      refine hns ⟨hmv, hvm.mp (hmem.mp (hooks.2.mp ho))⟩

/-- maskActionsPar returns bottom exactly for the unsafe actions (move leaves the grid
or enters an obstacle), for a valid in-range state over the real valid state space. -/
theorem maskActionsPar_bot_iff (map_size : Vec2D) (obstacles : List Obstacle)
    (env : TrainEnv) (state : State) (state_index : ℤ) (action : Action)
    (sc : Scratch) (cs : Caches)
    (hx : 0 < map_size.x) (hy : 0 < map_size.y)
    (harr : env.vss.arr = vssIndexList map_size obstacles)
    (hms : env.vss.map_size = mapSizeInit map_size.x map_size.y)
    (hrange : stateInRange state map_size.x map_size.y)
    (hvalid : isStateValid state obstacles = true)
    (hcs : CachesOK env.vss.arr cs) :
    (maskActionsPar env state state_index action sc cs).1 = ⊥ ↔
      ¬ agentActionSafe map_size obstacles state action := by
  obtain ⟨hra, hro, hrt⟩ := hrange
  have hmcb := moveCheckingBounds_spec state.agent_pos action map_size.x map_size.y hra
  have hsorted : List.Pairwise (· < ·) env.vss.arr := by
    rw [harr]
    exact (vssIndexList_spec map_size obstacles hx hy).1
  unfold maskActionsPar
  rw [hms]
  dsimp only
  cases hmv : (moveCheckingBounds state.agent_pos action (mapSizeInit map_size.x map_size.y)).2
  · simp only [Bool.not_false, if_true]
    refine iff_of_true trivial fun hsafe => ?_
    obtain ⟨hs1, _⟩ := hsafe
    rw [hmv] at hs1
    exact Bool.noConfusion hs1
  · simp only [Bool.not_true, Bool.false_eq_true, if_false]
    have hmove := hmcb.1 hmv
    have hrangemoved : stateInRange
        { state with agent_pos :=
            (moveCheckingBounds state.agent_pos action (mapSizeInit map_size.x map_size.y)).1 }
        map_size.x map_size.y :=
      ⟨hmove.2, hro, hrt⟩
    have hooks := isStateOutsideObstacles_ok env.vss cs
      { state with agent_pos :=
          (moveCheckingBounds state.agent_pos action (mapSizeInit map_size.x map_size.y)).1 }
      hsorted hcs
    have hmem : (State.to_index
        { state with agent_pos :=
            (moveCheckingBounds state.agent_pos action (mapSizeInit map_size.x map_size.y)).1 }
        env.vss.map_size ∈ env.vss.arr) ↔
        isStateValid
          { state with agent_pos :=
              (moveCheckingBounds state.agent_pos action (mapSizeInit map_size.x map_size.y)).1 }
          obstacles = true := by
      rw [harr, hms]
      exact (vssIndexList_spec map_size obstacles hx hy).2.1 _ hrangemoved
    obtain ⟨hto, hobs⟩ := (isStateValid_iff state obstacles).mp hvalid
    have hvm : (isStateValid
        { state with agent_pos :=
            (moveCheckingBounds state.agent_pos action (mapSizeInit map_size.x map_size.y)).1 }
        obstacles = true) ↔
        ∀ ob ∈ obstacles, ob.is_inside (state.agent_pos.move action) = false := by
      rw [isStateValid_iff]
      constructor
      · rintro ⟨_, h⟩ ob hob
        have h2 := (h ob hob).1
        dsimp only at h2
        rwa [hmove.1] at h2
      · intro h
        refine ⟨hto, fun ob hob => ⟨?_, (hobs ob hob).2.1, (hobs ob hob).2.2⟩⟩
        dsimp only
        rw [hmove.1]
        exact h ob hob
    cases ho : (isStateOutsideObstacles env.vss cs
        { state with agent_pos :=
            (moveCheckingBounds state.agent_pos action (mapSizeInit map_size.x map_size.y)).1 }).1
    · simp only [Bool.not_false, if_true]
      refine iff_of_true trivial fun hsafe => ?_
      have hin : (isStateOutsideObstacles env.vss cs
          { state with agent_pos :=
              (moveCheckingBounds state.agent_pos action (mapSizeInit map_size.x map_size.y)).1 }).1
          = true :=
        hooks.2.mpr (hmem.mpr (hvm.mpr hsafe.2))
      rw [ho] at hin
      exact Bool.noConfusion hin
    · simp only [Bool.not_true, Bool.false_eq_true, if_false]
      refine iff_of_false (by simp) fun hns => ?_
      refine hns ⟨hmv, hvm.mp (hmem.mp (hooks.2.mp ho))⟩

/-- Claim C2 (amended): for every valid in-range state that admits at least one safe
action, the action selected by the policy sweep (in either mode) never leaves the grid
and never enters an obstacle. (Without the safe-action hypothesis the claim fails: when
every move from the state is masked, Python max returns the first action, UP.) -/
theorem masked_policy_action_safe (map_size : Vec2D) (obstacles : List Obstacle)
    (env : TrainEnv) (state : State) (state_index : ℤ) (sc : Scratch) (cs : Caches)
    (hx : 0 < map_size.x) (hy : 0 < map_size.y)
    (harr : env.vss.arr = vssIndexList map_size obstacles)
    (hms : env.vss.map_size = mapSizeInit map_size.x map_size.y)
    (hrange : stateInRange state map_size.x map_size.y)
    (hvalid : isStateValid state obstacles = true)
    (hcs : CachesOK env.vss.arr cs)
    (hsafe : ∃ a : Action, agentActionSafe map_size obstacles state a) :
    agentActionSafe map_size obstacles state (newActionSeq env state state_index sc cs).1 ∧
      agentActionSafe map_size obstacles state (newActionPar env state state_index sc cs).1 := by
  have hsorted : List.Pairwise (· < ·) env.vss.arr := by
    rw [harr]
    exact (vssIndexList_spec map_size obstacles hx hy).1
  constructor
  ·
    rcases e1 : maskActionsSeq env state state_index Action.UP sc cs with ⟨kU, sc1, cs1⟩
    have hc1 : CachesOK env.vss.arr cs1 := by
      have h := maskActionsSeq_cachesOK env state state_index Action.UP sc cs hsorted hcs
      rwa [e1] at h
    rcases e2 : maskActionsSeq env state state_index Action.RIGHT sc1 cs1 with ⟨kR, sc2, cs2⟩
    have hc2 : CachesOK env.vss.arr cs2 := by
      have h := maskActionsSeq_cachesOK env state state_index Action.RIGHT sc1 cs1 hsorted hc1
      rwa [e2] at h
    rcases e3 : maskActionsSeq env state state_index Action.DOWN sc2 cs2 with ⟨kD, sc3, cs3⟩
    have hc3 : CachesOK env.vss.arr cs3 := by
      have h := maskActionsSeq_cachesOK env state state_index Action.DOWN sc2 cs2 hsorted hc2
      rwa [e3] at h
    rcases e4 : maskActionsSeq env state state_index Action.LEFT sc3 cs3 with ⟨kL, sc4, cs4⟩
    have bU : kU = ⊥ ↔ ¬ agentActionSafe map_size obstacles state Action.UP := by
      have h := maskActionsSeq_bot_iff map_size obstacles env state state_index Action.UP
        sc cs hx hy harr hms hrange hvalid hcs
      rwa [e1] at h
    have bR : kR = ⊥ ↔ ¬ agentActionSafe map_size obstacles state Action.RIGHT := by
      have h := maskActionsSeq_bot_iff map_size obstacles env state state_index Action.RIGHT
        sc1 cs1 hx hy harr hms hrange hvalid hc1
      rwa [e2] at h
    have bD : kD = ⊥ ↔ ¬ agentActionSafe map_size obstacles state Action.DOWN := by
      have h := maskActionsSeq_bot_iff map_size obstacles env state state_index Action.DOWN
        sc2 cs2 hx hy harr hms hrange hvalid hc2
      rwa [e3] at h
    have bL : kL = ⊥ ↔ ¬ agentActionSafe map_size obstacles state Action.LEFT := by
      have h := maskActionsSeq_bot_iff map_size obstacles env state state_index Action.LEFT
        sc3 cs3 hx hy harr hms hrange hvalid hc3
      rwa [e4] at h
    have hres : (newActionSeq env state state_index sc cs).1 =
        pyMax (Action.UP, kU) [(Action.RIGHT, kR), (Action.DOWN, kD), (Action.LEFT, kL)] := by
      simp only [newActionSeq, e1, e2, e3, e4]
    have hps := pyMax4_spec kU kR kD kL
    obtain ⟨a, ha⟩ := hsafe
    have hka : key4 kU kR kD kL a ≠ ⊥ := by
      cases a
      · exact fun h => (bU.mp h) ha
      · exact fun h => (bR.mp h) ha
      · exact fun h => (bD.mp h) ha
      · exact fun h => (bL.mp h) ha
    have hchosen : key4 kU kR kD kL
        (pyMax (Action.UP, kU) [(Action.RIGHT, kR), (Action.DOWN, kD), (Action.LEFT, kL)]) ≠
        ⊥ := by
      have hle := hps.1 a
      intro hbot
      rw [hbot] at hle
      exact hka (le_bot_iff.mp hle)
    rw [hres]
    cases hpm : pyMax (Action.UP, kU) [(Action.RIGHT, kR), (Action.DOWN, kD), (Action.LEFT, kL)]
    case UP =>
      rw [hpm] at hchosen
      by_contra hns
      exact hchosen (by simp only [key4]; exact bU.mpr hns)
    case RIGHT =>
      rw [hpm] at hchosen
      by_contra hns
      exact hchosen (by simp only [key4]; exact bR.mpr hns)
    case DOWN =>
      rw [hpm] at hchosen
      by_contra hns
      exact hchosen (by simp only [key4]; exact bD.mpr hns)
    case LEFT =>
      rw [hpm] at hchosen
      by_contra hns
      exact hchosen (by simp only [key4]; exact bL.mpr hns)
  ·
    rcases e1 : maskActionsPar env state state_index Action.UP sc cs with ⟨kU, sc1, cs1⟩
    have hc1 : CachesOK env.vss.arr cs1 := by
      have h := maskActionsPar_cachesOK env state state_index Action.UP sc cs hsorted hcs
      rwa [e1] at h
    rcases e2 : maskActionsPar env state state_index Action.RIGHT sc1 cs1 with ⟨kR, sc2, cs2⟩
    have hc2 : CachesOK env.vss.arr cs2 := by
      have h := maskActionsPar_cachesOK env state state_index Action.RIGHT sc1 cs1 hsorted hc1
      rwa [e2] at h
    rcases e3 : maskActionsPar env state state_index Action.DOWN sc2 cs2 with ⟨kD, sc3, cs3⟩
    have hc3 : CachesOK env.vss.arr cs3 := by
      have h := maskActionsPar_cachesOK env state state_index Action.DOWN sc2 cs2 hsorted hc2
      rwa [e3] at h
    rcases e4 : maskActionsPar env state state_index Action.LEFT sc3 cs3 with ⟨kL, sc4, cs4⟩
    have bU : kU = ⊥ ↔ ¬ agentActionSafe map_size obstacles state Action.UP := by
      have h := maskActionsPar_bot_iff map_size obstacles env state state_index Action.UP
        sc cs hx hy harr hms hrange hvalid hcs
      rwa [e1] at h
    have bR : kR = ⊥ ↔ ¬ agentActionSafe map_size obstacles state Action.RIGHT := by
      have h := maskActionsPar_bot_iff map_size obstacles env state state_index Action.RIGHT
        sc1 cs1 hx hy harr hms hrange hvalid hc1
      rwa [e2] at h
    have bD : kD = ⊥ ↔ ¬ agentActionSafe map_size obstacles state Action.DOWN := by
      have h := maskActionsPar_bot_iff map_size obstacles env state state_index Action.DOWN
        sc2 cs2 hx hy harr hms hrange hvalid hc2
      rwa [e3] at h
    have bL : kL = ⊥ ↔ ¬ agentActionSafe map_size obstacles state Action.LEFT := by
      have h := maskActionsPar_bot_iff map_size obstacles env state state_index Action.LEFT
        sc3 cs3 hx hy harr hms hrange hvalid hc3
      rwa [e4] at h
    have hres : (newActionPar env state state_index sc cs).1 =
        pyMax (Action.UP, kU) [(Action.RIGHT, kR), (Action.DOWN, kD), (Action.LEFT, kL)] := by
      simp only [newActionPar, e1, e2, e3, e4]
    have hps := pyMax4_spec kU kR kD kL
    obtain ⟨a, ha⟩ := hsafe
    have hka : key4 kU kR kD kL a ≠ ⊥ := by
      cases a
      · exact fun h => (bU.mp h) ha
      · exact fun h => (bR.mp h) ha
      · exact fun h => (bD.mp h) ha
      · exact fun h => (bL.mp h) ha
    have hchosen : key4 kU kR kD kL
        (pyMax (Action.UP, kU) [(Action.RIGHT, kR), (Action.DOWN, kD), (Action.LEFT, kL)]) ≠
        ⊥ := by
      have hle := hps.1 a
      intro hbot
      rw [hbot] at hle
      exact hka (le_bot_iff.mp hle)
    rw [hres]
    cases hpm : pyMax (Action.UP, kU) [(Action.RIGHT, kR), (Action.DOWN, kD), (Action.LEFT, kL)]
    case UP =>
      rw [hpm] at hchosen
      by_contra hns
      exact hchosen (by simp only [key4]; exact bU.mpr hns)
    case RIGHT =>
      rw [hpm] at hchosen
      by_contra hns
      exact hchosen (by simp only [key4]; exact bR.mpr hns)
    case DOWN =>
      rw [hpm] at hchosen
      by_contra hns
      exact hchosen (by simp only [key4]; exact bD.mpr hns)
    case LEFT =>
      rw [hpm] at hchosen
      by_contra hns
      exact hchosen (by simp only [key4]; exact bL.mpr hns)

/-- A 2x2 map whose cells (0,1) and (1,0) are obstacles: an agent at (0,0) has every
move either off-grid (DOWN, LEFT) or into an obstacle (UP, RIGHT). -/
def boxObstacles : List Obstacle := [⟨⟨0, 1⟩, ⟨1, 1⟩⟩, ⟨⟨1, 0⟩, ⟨1, 1⟩⟩]

/-- The valid state space of the boxed 2x2 map. -/
def vssBox : VSS where
  map_size := mapSizeInit 2 2
  arr := vssIndexList ⟨2, 2⟩ boxObstacles
  max_cache_length := 6

/-- A valid state of the boxed map with the agent trapped at (0,0). -/
def stateBox : State := ⟨⟨0, 0⟩, ⟨1, 1⟩, ⟨0, 0⟩⟩

/-- An all-zero scratch buffer. -/
def scZero : Scratch := ⟨fun _ => 0, fun _ => ⟨⟨0, 0⟩, ⟨0, 0⟩, ⟨0, 0⟩⟩, fun _ => 0⟩

/-- A training environment over the boxed map (value, reward and density functions are
irrelevant: every action of the trapped agent is masked before any Q computation). -/
def envBox : TrainEnv := ⟨vssBox, fun _ => 0, fun _ _ => 0, fun _ _ => 0, 0⟩

/-- Counterexample to claim C2 as stated: stateBox is a valid in-range state of the
valid state space, yet the policy sweep (both modes) selects UP — Python max over four
-inf keys returns the first action — whose move from (0,0) enters the obstacle at
(0,1). -/
theorem masked_policy_unsafe_when_all_masked :
    stateInRange stateBox 2 2 ∧ isStateValid stateBox boxObstacles = true ∧
      stateBox.to_index vssBox.map_size ∈ vssBox.arr ∧
      (newActionSeq envBox stateBox 0 scZero ⟨[], []⟩).1 = Action.UP ∧
      (newActionPar envBox stateBox 0 scZero ⟨[], []⟩).1 = Action.UP ∧
      ¬ agentActionSafe ⟨2, 2⟩ boxObstacles stateBox Action.UP := by
  decide

/-- A training environment over the obstacle-free 3x1 valid state space. -/
def envSafe3x1 : TrainEnv := ⟨vss3x1, fun _ => 0, fun _ _ => 0, fun _ _ => 0, 0⟩

/-- Witness for the C2 theorem: on the 3x1 map the state A(1,0) O(0,0) T(2,0) has the
safe action RIGHT, so the action chosen by either sweep is safe. -/
theorem masked_policy_action_safe_witness :
    agentActionSafe ⟨3, 1⟩ [] ⟨⟨1, 0⟩, ⟨0, 0⟩, ⟨2, 0⟩⟩
      (newActionSeq envSafe3x1 ⟨⟨1, 0⟩, ⟨0, 0⟩, ⟨2, 0⟩⟩ 0 scZero ⟨[], []⟩).1 ∧
    agentActionSafe ⟨3, 1⟩ [] ⟨⟨1, 0⟩, ⟨0, 0⟩, ⟨2, 0⟩⟩
      (newActionPar envSafe3x1 ⟨⟨1, 0⟩, ⟨0, 0⟩, ⟨2, 0⟩⟩ 0 scZero ⟨[], []⟩).1 :=
  masked_policy_action_safe ⟨3, 1⟩ [] envSafe3x1 ⟨⟨1, 0⟩, ⟨0, 0⟩, ⟨2, 0⟩⟩ 0 scZero ⟨[], []⟩
    (by decide) (by decide) rfl rfl (by decide) (by decide)
    (by simp [CachesOK, ValidCacheOK, NotValidCacheOK])
    ⟨Action.RIGHT, by decide⟩

/-- The valid "always turn right" transition distribution. -/
def distTurnRight : List ℚ := [0, 1, 0, 0]

/-- A valid state of the 3x1 map: agent (1,0), opponent (0,0), target (2,0); its packed
index 19 sits at position 13 of the 3x1 valid state space array. -/
def stateDiv : State := ⟨⟨1, 0⟩, ⟨0, 0⟩, ⟨2, 0⟩⟩

/-- A training environment over the 3x1 map with the identity value function, sparse
reward, the turn-right density and discount 1. -/
def envDiv : TrainEnv := ⟨vss3x1, fun i => (i : ℚ), sparseReward, ddmtdCall distTurnRight, 1⟩

/-- Claim C1 (code bug): the two modes do not compute Q-values from the same transition
probabilities. For every environment, state and action, the sequential sweep stores the
probability density(chosen_action, action) while the parallel worker stores
density(action, chosen_action) — parallel_train.py swaps the arguments. The divergence
is observable: on the 3x1 environment with the turn-right density, the state A(1,0)
O(0,0) T(2,0) and chosen action UP, the sequential mode computes Q = 14 but the
parallel mode computes Q = 12, so the per-iteration statistics differ beyond summation
order. -/
theorem seq_par_mode_divergence :
    (∀ (env : TrainEnv) (state : State) (state_index : ℤ) (chosen_action : Action)
      (knows : Bool) (action : Action) (sc : Scratch) (cs : Caches),
      (calcValueStepSeq env state state_index chosen_action knows action sc cs).1.probabilities
          action = env.markov_transition_density chosen_action action ∧
        (calcValueStepPar env state state_index chosen_action knows action sc cs).1.probabilities
          action = env.markov_transition_density action chosen_action) ∧
    (calculateNewValueSeq envDiv stateDiv 13 Action.UP true scZero ⟨[], []⟩).1 = 14 ∧
    (calculateNewValuePar envDiv stateDiv 13 Action.UP true scZero ⟨[], []⟩).1 = 12 ∧
    (14 : ℚ) ≠ 12 := by
  have harr : vss3x1.arr =
      ([3, 4, 5, 6, 7, 8, 9, 10, 11, 15, 16, 17, 18, 19, 20, 21, 22, 23] : List ℤ) := by
    decide
  have hms : vss3x1.map_size = mapSizeInit 3 1 := rfl
  have hml : vss3x1.max_cache_length = 9 := rfl
  refine ⟨fun env state state_index chosen_action knows action sc cs => ⟨?_, ?_⟩,
    ?_, ?_, by norm_num⟩
  · simp only [calcValueStepSeq]
    split_ifs <;> simp [updA]
  · simp only [calcValueStepPar]
    split_ifs <;> simp [updA]
  all_goals
  simp +decide [calculateNewValueSeq, calcValueStepSeq, calculateNewValuePar, calcValueStepPar,
    qTotal, envDiv, ddmtdCall, distTurnRight,
    stateDiv, scZero, updA, moveCheckingBounds, isStateOutsideObstacles, getValidIndex,
    binarySearch, binarySearchAux, odGet, odContains, addToValidCache, addToNotValidCache,
    loadNearStatesToCache, odSet, odPopFront, dropOverMax, dropOverMaxAux, pyGet, harr, hms, hml,
    State.to_index, mapSizeInit, sparseReward, Vec2D.move, Action.toInt]

/-- The TrainData statistics record; max_value_diff lives in WithTop to model
math.inf. -/
structure TrainData where
  iteration_number : ℤ
  mean_value : ℚ
  max_value_diff : WithTop ℚ
  changed_actions_number : ℤ
  changed_actions_percentage : ℚ

/-- The seed written by TrainManager.__init__: iteration 0, changed_actions =
space_size, changed percentage 1.0, max_value_diff = math.inf. -/
def trainDataInit (space_size : ℤ) : TrainData where
  iteration_number := 0
  mean_value := 0
  max_value_diff := ⊤
  changed_actions_number := space_size
  changed_actions_percentage := 1

/-- TrainManager.__check_stop_conditions: true means training stops before the next
iteration. -/
def checkStopConditions (td : TrainData) (max_iter : ℤ)
    (value_function_tolerance : ℚ) (changed_actions_tolerance : ℤ)
    (changed_actions_percentage_tolerance : ℚ) : Bool :=
  decide (td.iteration_number ≥ max_iter) ||
    decide (td.max_value_diff ≤ (value_function_tolerance : WithTop ℚ)) ||
    decide (td.changed_actions_number ≤ changed_actions_tolerance) ||
    decide (td.changed_actions_percentage ≤ changed_actions_percentage_tolerance)

/-- Counterexample to claim C8 as stated: a configuration with changed-actions
tolerance 18 on the 3x1 map (whose valid state space has exactly 18 states) passes the
whole validation, yet the stop check already succeeds on the seeded statistics, so no
iteration is executed. -/
theorem stop_check_true_at_seed :
    trainConfigsCheck { map_size := ⟨3, 1⟩, discount_factor := 0, changed_actions_tolerance := 18 } = false ∧
      (vss3x1.arr.length : ℤ) = 18 ∧
      checkStopConditions (trainDataInit 18) 100 0 18 0 = true := by
  decide

/-- Claim C8 (amended): the statistics are seeded with changed_actions = space_size and
max_value_diff = +infinity; for a validated configuration the stop check fails on the
seed — so at least one iteration runs — if and only if the changed-actions tolerance is
below the space size and the percentage tolerance is below 1. (Validation only demands
the tolerances be non-negative, so a tolerance at or above those bounds stops training
before the first iteration.) -/
theorem first_iteration_seeding (c : TrainConfigsData) (space_size : ℤ)
    (hvalid : trainConfigsCheck c = false) :
    trainDataInit space_size = ⟨0, 0, ⊤, space_size, 1⟩ ∧
      (checkStopConditions (trainDataInit space_size) c.max_iter c.value_function_tolerance
          c.changed_actions_tolerance c.changed_actions_percentage_tolerance = false ↔
        (c.changed_actions_tolerance < space_size ∧
          c.changed_actions_percentage_tolerance < 1)) := by
  refine ⟨rfl, ?_⟩
  have hiter : 0 < c.max_iter := by
    by_contra hle
    push_neg at hle
    have hh : trainCheckHelper c = true := by
      simp only [trainCheckHelper, checkPositivityInt, Bool.or_eq_true, decide_eq_true_eq]
      exact Or.inl (Or.inl (Or.inl (Or.inl (Or.inl hle))))
    simp only [trainConfigsCheck, hh, Bool.or_true] at hvalid
    exact absurd hvalid (by simp)
  have htop : decide ((⊤ : WithTop ℚ) ≤ (c.value_function_tolerance : WithTop ℚ)) = false := by
    simp
  simp only [checkStopConditions, trainDataInit, htop, Bool.or_eq_false_iff,
    decide_eq_false_iff_not, not_le, ge_iff_le]
  constructor
  · intro h
    tauto
  · intro h
    tauto

/-- Witness for the C8 theorem at the default configuration on the 3x1 map. -/
theorem first_iteration_seeding_witness :
    trainDataInit 18 = ⟨0, 0, ⊤, 18, 1⟩ ∧
      (checkStopConditions (trainDataInit 18) 100 0 0 0 = false ↔
        ((0 : ℤ) < 18 ∧ (0 : ℚ) < 1)) :=
  first_iteration_seeding { map_size := ⟨3, 1⟩, discount_factor := 0 } 18 (by decide)

/-- The three moving entities of a game session. -/
inductive Entity
  | agent
  | target
  | opponent
deriving DecidableEq, Repr

/-- The position of an entity inside the joint state (MovingEntity.__pos aliases the
corresponding field of the shared state). -/
def State.posOf (state : State) : Entity → Vec2D
  | Entity.agent => state.agent_pos
  | Entity.target => state.target_pos
  | Entity.opponent => state.opponent_pos

/-- Replace the position of an entity inside the joint state. -/
def State.setPos (state : State) : Entity → Vec2D → State
  | Entity.agent, p => { state with agent_pos := p }
  | Entity.target, p => { state with target_pos := p }
  | Entity.opponent, p => { state with opponent_pos := p }

/-- MovingEntity.move with the sampled actual action passed explicitly: the entity's
position is moved in place, and undone when the resulting joint state is out of bounds
or — Python's `or` short-circuits, so the obstacle/VSS lookup only runs for in-bounds
states — not outside the obstacles, i.e. absent from the valid state space. -/
def entityMove (vss : VSS) (cs : Caches) (state : State) (e : Entity)
    (actual_action : Action) : State × Caches :=
  let p := (state.posOf e).move actual_action
  let moved := state.setPos e p
  if ! isStateWithinBounds vss moved then (moved.setPos e (p.undo actual_action), cs)
  else
    let r := isStateOutsideObstacles vss cs moved
    if ! r.1 then (moved.setPos e (p.undo actual_action), r.2)
    else (moved, r.2)

/-- GameManager.__check_for_result: the game ends when the agent reaches the target
(SUCCESS) or walks into the opponent (FAIL). -/
def checkForResult (state : State) : Bool :=
  decide (state.agent_pos = state.target_pos) || decide (state.agent_pos = state.opponent_pos)

/-- GameManager.__next_iteration with the three sampled actual actions passed
explicitly: the agent moves; if the game did not end, the target and then the opponent
move. -/
def gameTick (vss : VSS) (cs : Caches) (state : State) (aA aT aO : Action) :
    State × Caches :=
  let r1 := entityMove vss cs state Entity.agent aA
  if checkForResult r1.1 then r1
  else
    let r2 := entityMove vss r1.2 r1.1 Entity.target aT
    entityMove vss r2.2 r2.1 Entity.opponent aO

/-- The game loop of GameManager.start: iterate ticks (each fed its three sampled
actions) until the result is decided. -/
def gameRun (vss : VSS) (cs : Caches) (state : State) :
    List (Action × Action × Action) → State × Caches
  | [] => (state, cs)
  | t :: ts =>
    let r := gameTick vss cs state t.1 t.2.1 t.2.2
    if checkForResult r.1 then r
    else gameRun vss r.2 r.1 ts

theorem setPos_undo (state : State) (e : Entity) (a : Action) :
    (state.setPos e ((state.posOf e).move a)).setPos e
      (((state.posOf e).move a).undo a) = state := by
  rw [undo_move]
  cases e <;> rfl

theorem withinBounds_range (map_size : Vec2D) (vss : VSS) (s : State)
    (hms : vss.map_size = mapSizeInit map_size.x map_size.y)
    (hwb : isStateWithinBounds vss s = true) :
    stateInRange s map_size.x map_size.y := by
  simp only [isStateWithinBounds, isPosWithinBounds, hms, mapSizeInit, Bool.and_eq_true,
    decide_eq_true_eq] at hwb
  simp only [stateInRange, posInRange]
  omega

theorem entityMove_preserves (map_size : Vec2D) (obstacles : List Obstacle) (vss : VSS)
    (cs : Caches) (state : State) (e : Entity) (a : Action)
    (hx : 0 < map_size.x) (hy : 0 < map_size.y)
    (harr : vss.arr = vssIndexList map_size obstacles)
    (hms : vss.map_size = mapSizeInit map_size.x map_size.y)
    (hrange : stateInRange state map_size.x map_size.y)
    (hvalid : isStateValid state obstacles = true)
    (hcs : CachesOK vss.arr cs) :
    (stateInRange (entityMove vss cs state e a).1 map_size.x map_size.y ∧
        isStateValid (entityMove vss cs state e a).1 obstacles = true) ∧
      CachesOK vss.arr (entityMove vss cs state e a).2 := by
  have hsorted : List.Pairwise (· < ·) vss.arr := by
    rw [harr]
    exact (vssIndexList_spec map_size obstacles hx hy).1
  unfold entityMove
  dsimp only
  cases hwb : isStateWithinBounds vss (state.setPos e ((state.posOf e).move a))
  · simp only [Bool.not_false, if_true, setPos_undo]
    exact ⟨⟨hrange, hvalid⟩, hcs⟩
  · simp only [Bool.not_true, Bool.false_eq_true, if_false]
    have hooks := isStateOutsideObstacles_ok vss cs
      (state.setPos e ((state.posOf e).move a)) hsorted hcs
    have hrm : stateInRange (state.setPos e ((state.posOf e).move a)) map_size.x map_size.y :=
      withinBounds_range map_size vss _ hms hwb
    cases ho : (isStateOutsideObstacles vss cs (state.setPos e ((state.posOf e).move a))).1
    · simp only [Bool.not_false, if_true, setPos_undo]
      exact ⟨⟨hrange, hvalid⟩, hooks.1⟩
    · simp only [Bool.not_true, Bool.false_eq_true, if_false]
      refine ⟨⟨hrm, ?_⟩, hooks.1⟩
      have hmem := hooks.2.mp ho
      rw [harr, hms] at hmem
      exact ((vssIndexList_spec map_size obstacles hx hy).2.1 _ hrm).mp hmem

theorem entityMove_invalid_undo (map_size : Vec2D) (obstacles : List Obstacle) (vss : VSS)
    (cs : Caches) (state : State) (e : Entity) (a : Action)
    (hx : 0 < map_size.x) (hy : 0 < map_size.y)
    (harr : vss.arr = vssIndexList map_size obstacles)
    (hms : vss.map_size = mapSizeInit map_size.x map_size.y)
    (hcs : CachesOK vss.arr cs)
    (hinv : isStateValid (state.setPos e ((state.posOf e).move a)) obstacles = false) :
    (entityMove vss cs state e a).1 = state := by
  have hsorted : List.Pairwise (· < ·) vss.arr := by
    rw [harr]
    exact (vssIndexList_spec map_size obstacles hx hy).1
  unfold entityMove
  dsimp only
  cases hwb : isStateWithinBounds vss (state.setPos e ((state.posOf e).move a))
  · simp only [Bool.not_false, if_true, setPos_undo]
  · simp only [Bool.not_true, Bool.false_eq_true, if_false]
    have hrm : stateInRange (state.setPos e ((state.posOf e).move a)) map_size.x map_size.y :=
      withinBounds_range map_size vss _ hms hwb
    cases ho : (isStateOutsideObstacles vss cs (state.setPos e ((state.posOf e).move a))).1
    · simp only [Bool.not_false, if_true, setPos_undo]
    · exfalso
      have hooks := isStateOutsideObstacles_ok vss cs
        (state.setPos e ((state.posOf e).move a)) hsorted hcs
      have hmem := hooks.2.mp ho
      rw [harr, hms] at hmem
      have hv := ((vssIndexList_spec map_size obstacles hx hy).2.1 _ hrm).mp hmem
      rw [hinv] at hv
      exact Bool.noConfusion hv

theorem gameTick_preserves (map_size : Vec2D) (obstacles : List Obstacle) (vss : VSS)
    (cs : Caches) (state : State) (aA aT aO : Action)
    (hx : 0 < map_size.x) (hy : 0 < map_size.y)
    (harr : vss.arr = vssIndexList map_size obstacles)
    (hms : vss.map_size = mapSizeInit map_size.x map_size.y)
    (hrange : stateInRange state map_size.x map_size.y)
    (hvalid : isStateValid state obstacles = true)
    (hcs : CachesOK vss.arr cs) :
    (stateInRange (gameTick vss cs state aA aT aO).1 map_size.x map_size.y ∧
        isStateValid (gameTick vss cs state aA aT aO).1 obstacles = true) ∧
      CachesOK vss.arr (gameTick vss cs state aA aT aO).2 := by
  unfold gameTick
  dsimp only
  have h1 := entityMove_preserves map_size obstacles vss cs state Entity.agent aA
    hx hy harr hms hrange hvalid hcs
  cases hcf : checkForResult (entityMove vss cs state Entity.agent aA).1
  · simp only [Bool.false_eq_true, if_false]
    have h2 := entityMove_preserves map_size obstacles vss
      (entityMove vss cs state Entity.agent aA).2
      (entityMove vss cs state Entity.agent aA).1 Entity.target aT
      hx hy harr hms h1.1.1 h1.1.2 h1.2
    exact entityMove_preserves map_size obstacles vss _ _ Entity.opponent aO
      hx hy harr hms h2.1.1 h2.1.2 h2.2
  · simp only [if_true]
    exact h1

theorem gameRun_preserves (map_size : Vec2D) (obstacles : List Obstacle) (vss : VSS)
    (hx : 0 < map_size.x) (hy : 0 < map_size.y)
    (harr : vss.arr = vssIndexList map_size obstacles)
    (hms : vss.map_size = mapSizeInit map_size.x map_size.y) :
    ∀ (acts : List (Action × Action × Action)) (cs : Caches) (state : State),
      stateInRange state map_size.x map_size.y →
      isStateValid state obstacles = true →
      CachesOK vss.arr cs →
      (stateInRange (gameRun vss cs state acts).1 map_size.x map_size.y ∧
          isStateValid (gameRun vss cs state acts).1 obstacles = true) ∧
        CachesOK vss.arr (gameRun vss cs state acts).2 := by
  intro acts
  induction acts with
  | nil =>
    intro cs state hrange hvalid hcs
    exact ⟨⟨hrange, hvalid⟩, hcs⟩
  | cons t ts ih =>
    intro cs state hrange hvalid hcs
    have h1 := gameTick_preserves map_size obstacles vss cs state t.1 t.2.1 t.2.2
      hx hy harr hms hrange hvalid hcs
    unfold gameRun
    dsimp only
    cases hcf : checkForResult (gameTick vss cs state t.1 t.2.1 t.2.2).1
    · simp only [Bool.false_eq_true, if_false]
      exact ih _ _ h1.1.1 h1.1.2 h1.2
    · simp only [if_true]
      exact h1

/-- Claim C9: in every game tick, a sampled move of the target that would land on the
opponent (and symmetrically of the opponent onto the target) produces a joint state
absent from the valid state space, so the move is undone; consequently, starting from a
valid in-range state, target position and opponent position differ in every reachable
game state of the loop. -/
theorem game_no_overlap (map_size : Vec2D) (obstacles : List Obstacle) (vss : VSS)
    (cs : Caches) (state : State)
    (hx : 0 < map_size.x) (hy : 0 < map_size.y)
    (harr : vss.arr = vssIndexList map_size obstacles)
    (hms : vss.map_size = mapSizeInit map_size.x map_size.y)
    (hrange : stateInRange state map_size.x map_size.y)
    (hvalid : isStateValid state obstacles = true)
    (hcs : CachesOK vss.arr cs) :
    (∀ a : Action, state.target_pos.move a = state.opponent_pos →
        (entityMove vss cs state Entity.target a).1 = state) ∧
      (∀ a : Action, state.opponent_pos.move a = state.target_pos →
        (entityMove vss cs state Entity.opponent a).1 = state) ∧
      (∀ acts : List (Action × Action × Action),
        (gameRun vss cs state acts).1.target_pos ≠
          (gameRun vss cs state acts).1.opponent_pos) := by
  refine ⟨fun a ha => ?_, fun a ha => ?_, fun acts => ?_⟩
  · refine entityMove_invalid_undo map_size obstacles vss cs state Entity.target a
      hx hy harr hms hcs ?_
    simp [isStateValid, State.setPos, State.posOf, ha]
  · refine entityMove_invalid_undo map_size obstacles vss cs state Entity.opponent a
      hx hy harr hms hcs ?_
    simp [isStateValid, State.setPos, State.posOf, ha]
  · have hrun := gameRun_preserves map_size obstacles vss hx hy harr hms acts cs state
      hrange hvalid hcs
    exact ((isStateValid_iff _ _).mp hrun.1.2).1

/-- Witness for the C9 theorem on the 3x1 map with the valid starting state A(1,0)
O(0,0) T(2,0) and empty caches. -/
theorem game_no_overlap_witness :
    (∀ a : Action, (⟨⟨1, 0⟩, ⟨0, 0⟩, ⟨2, 0⟩⟩ : State).target_pos.move a =
        (⟨⟨1, 0⟩, ⟨0, 0⟩, ⟨2, 0⟩⟩ : State).opponent_pos →
        (entityMove vss3x1 ⟨[], []⟩ ⟨⟨1, 0⟩, ⟨0, 0⟩, ⟨2, 0⟩⟩ Entity.target a).1 =
          ⟨⟨1, 0⟩, ⟨0, 0⟩, ⟨2, 0⟩⟩) ∧
      (∀ a : Action, (⟨⟨1, 0⟩, ⟨0, 0⟩, ⟨2, 0⟩⟩ : State).opponent_pos.move a =
        (⟨⟨1, 0⟩, ⟨0, 0⟩, ⟨2, 0⟩⟩ : State).target_pos →
        (entityMove vss3x1 ⟨[], []⟩ ⟨⟨1, 0⟩, ⟨0, 0⟩, ⟨2, 0⟩⟩ Entity.opponent a).1 =
          ⟨⟨1, 0⟩, ⟨0, 0⟩, ⟨2, 0⟩⟩) ∧
      (∀ acts : List (Action × Action × Action),
        (gameRun vss3x1 ⟨[], []⟩ ⟨⟨1, 0⟩, ⟨0, 0⟩, ⟨2, 0⟩⟩ acts).1.target_pos ≠
          (gameRun vss3x1 ⟨[], []⟩ ⟨⟨1, 0⟩, ⟨0, 0⟩, ⟨2, 0⟩⟩ acts).1.opponent_pos) :=
  game_no_overlap ⟨3, 1⟩ [] vss3x1 ⟨[], []⟩ ⟨⟨1, 0⟩, ⟨0, 0⟩, ⟨2, 0⟩⟩
    (by decide) (by decide) rfl rfl (by decide) (by decide)
    (by
      refine ⟨fun p hp => ?_, fun p hp => ?_⟩ <;> exact absurd hp (List.not_mem_nil p))

end GridAgent
